import Mathlib

/-!
Verification development for the Chebyshev graph-filtering core of `pygsp`
(`pygsp/filters/approximations.py` and the Chebyshev routines of
`pygsp/operators.py`).

Modelling conventions:

* Exact arithmetic: numpy floating point arrays are modelled over `ℚ`
  (batch filtering) and `ℝ` (scalar evaluation, which uses `cos`/`arccos`).
* A signal batch of shape `(M, Fin, N)` is a function
  `Fin M → Fin F → Fin N → ℚ`; the sparse/dense Laplacian is a plain matrix
  `Fin N → Fin N → ℚ`.  `x @ L` (`L.__rmul__(x)`) acts independently on each
  `(signal, channel)` row of the stacked signal matrix, which is how it is
  modelled here; the `(M*Fin, N) ↔ (M, Fin, N)` reshapes in the source are
  buffer bookkeeping for that stacking and are modelled explicitly in the
  heap model at the end of the file.
* numpy elementwise operations on arrays are modelled pointwise.
-/

namespace PyGSP

/-- Signal batches of shape `(M, F, N)`: `M` signals, `F` channels, `N` nodes. -/
abbrev Sig (M F N : Nat) : Type := Fin M → Fin F → Fin N → ℚ

/-- A dense `N × N` operator (the graph Laplacian or its rescaling). -/
abbrev Mat (N : Nat) : Type := Fin N → Fin N → ℚ

/-- `np.einsum('oi,min->mon', c, x)`: the channel-mixing contraction `mult`
used by `Chebyshev._filter_recursive` and `Chebyshev._filter_clenshaw`. -/
def multC {M Fi Fo N : Nat} (c : Fin Fo → Fin Fi → ℚ) (x : Sig M Fi N) :
    Sig M Fo N :=
  fun m o n => ∑ i, c o i * x m i n

/-- `L.__rmul__(x)`, i.e. `x @ L`, acting on each `(signal, channel)` row:
one diffusion step (`dot` in `Chebyshev._filter_recursive` / `_filter_clenshaw`). -/
def dotS {M F N : Nat} (L : Mat N) (x : Sig M F N) : Sig M F N :=
  fun m i n => ∑ j, x m i j * L j n

/-- `L = 2 * L / self.G.lmax - I` in `Chebyshev._filter`: rescale the
Laplacian from `[0, lmax]` to `[-1, 1]`. -/
def rescaleL {N : Nat} (L : Mat N) (lmax : ℚ) : Mat N :=
  fun i j => 2 * L i j / lmax - (if i = j then 1 else 0)

/-- The loop `for k in range(2, K)` of `Chebyshev._filter_recursive`;
`n` is the number of remaining iterations, `k` the current order,
`(x0, x1)` the two retained diffused-signal buffers, `result` the
accumulator.  Each iteration computes `x2 = 2 * dot(L, x1) - x0`,
accumulates `result += mult(c[k], x2)` and shifts the buffers. -/
def filterRecLoop {M Fi Fo N : Nat} (L : Mat N) (c : Nat → Fin Fo → Fin Fi → ℚ) :
    Nat → Nat → Sig M Fi N × Sig M Fi N → Sig M Fo N → Sig M Fo N
  | 0, _, _, result => result
  | n+1, k, (x0, x1), result =>
    let x2 : Sig M Fi N := (2 : ℚ) • dotS L x1 - x0
    filterRecLoop L c n (k+1) (x1, x2) (result + multC (c k) x2)

/-- `Chebyshev._filter_recursive` (after the Laplacian has been rescaled by
`Chebyshev._filter`): `x0 = s.view(); result = mult(c[0], x0);
if K > 1: x1 = dot(L, x0); result += mult(c[1], x1)`; then the order loop.
`K1` is `c.shape[0]`, i.e. the number of Chebyshev orders. -/
def filterRecursive {M Fi Fo N : Nat} (L : Mat N) (c : Nat → Fin Fo → Fin Fi → ℚ)
    (K1 : Nat) (s : Sig M Fi N) : Sig M Fo N :=
  let x0 := s
  let result := multC (c 0) x0
  if 2 ≤ K1 then
    let x1 := dotS L x0
    filterRecLoop L c (K1 - 2) 2 (x0, x1) (result + multC (c 1) x1)
  else result

/-- The loop `for k in range(K-2, 0, -1)` of `Chebyshev._filter_clenshaw`;
the first argument is the current loop index (iterated downwards to 1),
the state is `(b2, b1)`.  Each iteration computes
`b = mult(c[k], s) + 2 * dot(L, b1) - b2` and shifts. -/
def filterClenLoop {M Fi Fo N : Nat} (L : Mat N) (c : Nat → Fin Fo → Fin Fi → ℚ)
    (s : Sig M Fi N) : Nat → Sig M Fo N × Sig M Fo N → Sig M Fo N × Sig M Fo N
  | 0, st => st
  | k+1, (b2, b1) =>
    filterClenLoop L c s k (b1, multC (c (k+1)) s + (2 : ℚ) • dotS L b1 - b2)

/-- `Chebyshev._filter_clenshaw` (after the Laplacian has been rescaled):
`b2 = 0; b1 = mult(c[K-1], s) if K >= 2 else np.zeros((M, Fout, N))`,
the backward loop, and finally `mult(c[0], s) + dot(L, b1) - b2`. -/
def filterClenshaw {M Fi Fo N : Nat} (L : Mat N) (c : Nat → Fin Fo → Fin Fi → ℚ)
    (K1 : Nat) (s : Sig M Fi N) : Sig M Fo N :=
  let b2 : Sig M Fo N := 0
  let b1 : Sig M Fo N := if 2 ≤ K1 then multC (c (K1 - 1)) s else 0
  let p := filterClenLoop L c s (K1 - 2) (b2, b1)
  multC (c 0) s + dotS L p.2 - p.1

/-- `Chebyshev._filter`: rescale the Laplacian to `2 L / lmax - I`, then
dispatch on the method name (`getattr(self, '_filter_' + method)`); the
only `_filter_*` attributes of the class are `_filter_recursive` and
`_filter_clenshaw`, and any other name raises
`ValueError('Unknown method {}.')`.  `method=None` defaults to
`'recursive'`. -/
def chebyshevFilter {M Fi Fo N : Nat} (L : Mat N) (lmax : ℚ)
    (c : Nat → Fin Fo → Fin Fi → ℚ) (K1 : Nat) (s : Sig M Fi N)
    (method : Option String) : Except String (Sig M Fo N) :=
  let Lr := rescaleL L lmax
  let m := method.getD "recursive"
  if m = "recursive" then .ok (filterRecursive Lr c K1 s)
  else if m = "clenshaw" then .ok (filterClenshaw Lr c K1 s)
  else .error ("Unknown method " ++ m ++ ".")

/-- `Chebyshev._evaluate_direct`, elementwise in `x` (all numpy operations
involved are pointwise): `result = Σ_k c[k] * cos(k * arccos x)`. -/
noncomputable def evaluateDirect (c : Nat → ℝ) (K1 : Nat) (x : ℝ) : ℝ :=
  ∑ k ∈ Finset.range K1, c k * Real.cos (k * Real.arccos x)

/-- The loop `for k in range(2, K)` of `Chebyshev._evaluate_recursive`,
elementwise in `x`; same shape as `filterRecLoop`. -/
def evalRecLoop (c : Nat → ℝ) (x : ℝ) : Nat → Nat → ℝ × ℝ → ℝ → ℝ
  | 0, _, _, result => result
  | n+1, k, (x0, x1), result =>
    let x2 := 2 * x * x1 - x0
    evalRecLoop c x n (k+1) (x1, x2) (result + c k * x2)

/-- `Chebyshev._evaluate_recursive`, elementwise in `x`:
`x0 = ones; result = c[0] * x0; if K > 1: x1 = x; result += c[1] * x1`;
then the three-term recurrence loop. -/
def evaluateRecursive (c : Nat → ℝ) (K1 : Nat) (x : ℝ) : ℝ :=
  let x0 : ℝ := 1
  let result := c 0 * x0
  if 2 ≤ K1 then
    evalRecLoop c x (K1 - 2) 2 (x0, x) (result + c 1 * x)
  else result

/-- The loop `for k in range(K-2, 0, -1)` of `Chebyshev._evaluate_clenshaw`,
elementwise in `x`. -/
def evalClenLoop (c : Nat → ℝ) (x : ℝ) : Nat → ℝ × ℝ → ℝ × ℝ
  | 0, st => st
  | k+1, (b2, b1) => evalClenLoop c x k (b1, c (k+1) + 2 * x * b1 - b2)

/-- `Chebyshev._evaluate_clenshaw`, elementwise in `x`:
`b2 = 0; b1 = c[K-1] if K >= 2 else 0`; backward loop; finally
`c[0] + x * b1 - b2`. -/
def evaluateClenshaw (c : Nat → ℝ) (K1 : Nat) (x : ℝ) : ℝ :=
  let b2 : ℝ := 0
  let b1 : ℝ := if 2 ≤ K1 then c (K1 - 1) else 0
  let p := evalClenLoop c x (K1 - 2) (b2, b1)
  c 0 + x * p.2 - p.1

/-- `Chebyshev._evaluate`: rescale `x' = 2x/lmax - 1`, then dispatch on the
method name (`getattr(self, '_evaluate_' + method)`); the `_evaluate_*`
attributes of the class are `_evaluate_direct`, `_evaluate_recursive` and
`_evaluate_clenshaw`; any other name raises
`ValueError('Unknown method {}.')`.  `method=None` defaults to
`'recursive'`.  (The out-of-domain check only emits a log warning and does
not change the value.) -/
noncomputable def chebyshevEvaluate (lmax : ℝ) (c : Nat → ℝ) (K1 : Nat) (x : ℝ)
    (method : Option String) : Except String ℝ :=
  let y := 2 * x / lmax - 1
  let m := method.getD "recursive"
  if m = "direct" then .ok (evaluateDirect c K1 y)
  else if m = "recursive" then .ok (evaluateRecursive c K1 y)
  else if m = "clenshaw" then .ok (evaluateClenshaw c K1 y)
  else .error ("Unknown method " ++ m ++ ".")

/-!
### Abstract Chebyshev / Clenshaw theory

The forward three-term recurrence and the backward Clenshaw recurrence are
analysed once, for an arbitrary linear operator `f` on a module, and then
instantiated both for scalar evaluation (multiplication by `x'` on `ℝ`) and
for batch filtering (diffusion through the rescaled Laplacian on `ℚ`-signal
batches).
-/

section ChebAbstract

variable {R : Type} [CommRing R] {V W : Type} [AddCommGroup V] [Module R V]
  [AddCommGroup W]

/-- First-kind Chebyshev recurrence applied to a linear operator `f`:
`T 0 = id`, `T 1 = f`, `T (k+2) = 2 f ∘ T (k+1) - T k`. -/
def chebT (f : V →ₗ[R] V) : Nat → V → V
  | 0, v => v
  | 1, v => f v
  | k+2, v => (2 : R) • f (chebT f (k+1) v) - chebT f k v

/-- Second-kind Chebyshev recurrence applied to a linear operator `f`. -/
def chebU (f : V →ₗ[R] V) : Nat → V → V
  | 0, v => v
  | 1, v => (2 : R) • f v
  | k+2, v => (2 : R) • f (chebU f (k+1) v) - chebU f k v

lemma chebT_zero (f : V →ₗ[R] V) (v : V) : chebT f 0 v = v := rfl

lemma chebT_one (f : V →ₗ[R] V) (v : V) : chebT f 1 v = f v := rfl

lemma chebT_add_two (f : V →ₗ[R] V) (k : Nat) (v : V) :
    chebT f (k+2) v = (2 : R) • f (chebT f (k+1) v) - chebT f k v := rfl

lemma chebU_zero (f : V →ₗ[R] V) (v : V) : chebU f 0 v = v := rfl

lemma chebU_one (f : V →ₗ[R] V) (v : V) : chebU f 1 v = (2 : R) • f v := rfl

lemma chebU_add_two (f : V →ₗ[R] V) (k : Nat) (v : V) :
    chebU f (k+2) v = (2 : R) • f (chebU f (k+1) v) - chebU f k v := rfl

/-- `T (k+2) = f ∘ U (k+1) - U k`: the identity connecting the two kinds,
used to prove Clenshaw evaluation correct. -/
lemma chebT_eq_U (f : V →ₗ[R] V) (k : Nat) (v : V) :
    chebT f (k+2) v = f (chebU f (k+1) v) - chebU f k v := by
  induction k using Nat.twoStepInduction generalizing v with
  | zero =>
    show (2 : R) • f (f v) - v = f ((2 : R) • f v) - v
    simp only [map_smul]
  | one =>
    show (2 : R) • f ((2 : R) • f (f v) - v) - f v
        = f ((2 : R) • f ((2 : R) • f v) - v) - (2 : R) • f v
    simp only [map_sub, map_smul]
    module
  | more n ih1 ih2 =>
    have e1 : chebT f (n+4) v = (2 : R) • f (chebT f (n+3) v) - chebT f (n+2) v :=
      chebT_add_two f (n+2) v
    have e2 : chebT f (n+3) v = f (chebU f (n+2) v) - chebU f (n+1) v := ih2 v
    have e3 : chebT f (n+2) v = f (chebU f (n+1) v) - chebU f n v := ih1 v
    have u1 : chebU f (n+3) v = (2 : R) • f (chebU f (n+2) v) - chebU f (n+1) v :=
      chebU_add_two f (n+1) v
    have u2 : chebU f (n+2) v = (2 : R) • f (chebU f (n+1) v) - chebU f n v :=
      chebU_add_two f n v
    show chebT f (n+4) v = f (chebU f (n+3) v) - chebU f (n+2) v
    rw [e1, e2, e3, u1, u2]
    simp only [map_sub, map_smul]
    module

section Clenshaw

variable [Module R W] (f : W →ₗ[R] W) (a : Nat → W) (K1 : Nat)

/-- Partial tails of the Clenshaw backward recurrence, expressed directly as
second-kind Chebyshev sums: `clenSU j = Σ_{j ≤ t < K1} U (t-j) (a t)`. -/
def clenSU (j : Nat) : W :=
  ∑ t ∈ Finset.range K1, if j ≤ t then chebU f (t - j) (a t) else 0

/-- The Clenshaw state satisfies the backward recurrence
`b_j = a_j + 2 f b_{j+1} - b_{j+2}` (for coefficients vanishing at and
beyond `K1`). -/
lemma clenSU_step (ha : ∀ t, K1 ≤ t → a t = 0) (j : Nat) :
    clenSU f a K1 j = a j + (2 : R) • f (clenSU f a K1 (j+1)) - clenSU f a K1 (j+2) := by
  have haj : a j = ∑ t ∈ Finset.range K1, (if t = j then a t else 0) := by
    rw [Finset.sum_ite_eq' (Finset.range K1) j a]
    by_cases h : j < K1
    · simp [h]
    · simp [Finset.mem_range, h, ha j (Nat.le_of_not_lt h)]
  have hf : (2 : R) • f (clenSU f a K1 (j+1))
      = ∑ t ∈ Finset.range K1,
          (if j+1 ≤ t then (2 : R) • f (chebU f (t - (j+1)) (a t)) else 0) := by
    rw [clenSU, map_sum, Finset.smul_sum]
    refine Finset.sum_congr rfl fun t _ => ?_
    split
    · rfl
    · simp
  rw [haj, hf, clenSU, clenSU, ← Finset.sum_add_distrib, ← Finset.sum_sub_distrib]
  refine Finset.sum_congr rfl fun t _ => ?_
  rcases Nat.lt_or_ge t j with hlt | hge
  · have h1 : ¬ j ≤ t := by omega
    have h2 : ¬ t = j := by omega
    have h3 : ¬ j + 1 ≤ t := by omega
    have h4 : ¬ j + 2 ≤ t := by omega
    simp [h1, h2, h3, h4]
  · rcases Nat.lt_or_ge t (j+2) with hsm | hbig
    · rcases Nat.lt_or_ge t (j+1) with hj | hj1
      · -- t = j
        have ht : t = j := by omega
        subst ht
        have h3 : ¬ t + 1 ≤ t := by omega
        have h4 : ¬ t + 2 ≤ t := by omega
        simp [h3, h4, Nat.sub_self, chebU_zero]
      · -- t = j + 1
        have ht : t = j + 1 := by omega
        subst ht
        have h1 : j ≤ j + 1 := by omega
        have h2 : ¬ j + 1 = j := by omega
        have h4 : ¬ j + 2 ≤ j + 1 := by omega
        have hs1 : j + 1 - j = 1 := by omega
        have hs0 : j + 1 - (j+1) = 0 := by omega
        simp [h1, h2, h4, hs1, hs0, chebU_one, chebU_zero]
    · -- j + 2 ≤ t
      obtain ⟨d, rfl⟩ : ∃ d, t = j + 2 + d := ⟨t - (j+2), by omega⟩
      have h1 : j ≤ j + 2 + d := by omega
      have h2 : ¬ j + 2 + d = j := by omega
      have h3 : j + 1 ≤ j + 2 + d := by omega
      have h4 : j + 2 ≤ j + 2 + d := by omega
      have hs2 : j + 2 + d - j = d + 2 := by omega
      have hs1 : j + 2 + d - (j + 1) = d + 1 := by omega
      have hs0 : j + 2 + d - (j + 2) = d := by omega
      simp only [h1, h2, h3, h4, hs2, hs1, hs0, if_true, if_false,
        chebU_add_two]
      abel

/-- Abstract form of the backward loop of the Clenshaw variants: the first
argument is the loop index, iterated downwards to 1. -/
def clenLoopAbs : Nat → W × W → W × W
  | 0, st => st
  | k+1, (b2, b1) => clenLoopAbs k (b1, a (k+1) + (2 : R) • f b1 - b2)

lemma clenLoopAbs_succ (k : Nat) (b2 b1 : W) :
    clenLoopAbs f a (k+1) (b2, b1) = clenLoopAbs f a k (b1, a (k+1) + (2 : R) • f b1 - b2) := rfl

/-- Running the backward loop from index `k` on the states `clenSU (k+2)`,
`clenSU (k+1)` ends in the states `clenSU 2`, `clenSU 1`. -/
lemma clenLoopAbs_inv (ha : ∀ t, K1 ≤ t → a t = 0) (k : Nat) :
    clenLoopAbs f a k (clenSU f a K1 (k+2), clenSU f a K1 (k+1))
      = (clenSU f a K1 2, clenSU f a K1 1) := by
  induction k with
  | zero => rfl
  | succ k ih =>
    show clenLoopAbs f a (k+1) (clenSU f a K1 (k+3), clenSU f a K1 (k+2)) = _
    rw [clenLoopAbs_succ]
    have hs : clenSU f a K1 (k+1)
        = a (k+1) + (2 : R) • f (clenSU f a K1 (k+2)) - clenSU f a K1 (k+3) :=
      clenSU_step f a K1 ha (k+1)
    rw [← hs]
    exact ih

/-- Tails at or beyond `K1` are empty. -/
lemma clenSU_top (j : Nat) (hj : K1 ≤ j) : clenSU f a K1 j = 0 := by
  refine Finset.sum_eq_zero fun t ht => ?_
  rw [Finset.mem_range] at ht
  rw [if_neg (by omega)]

/-- The last tail is the top coefficient. -/
lemma clenSU_last (m : Nat) : clenSU f a (m+1) m = a m := by
  rw [clenSU, Finset.sum_range_succ]
  have h1 : (∑ t ∈ Finset.range m, if m ≤ t then chebU f (t - m) (a t) else 0) = 0 :=
    Finset.sum_eq_zero fun t ht => by
      rw [Finset.mem_range] at ht
      rw [if_neg (by omega)]
  rw [h1, zero_add, if_pos (le_refl m), Nat.sub_self, chebU_zero]

/-- The final combination `a 0 + f b1 - b2` of Clenshaw evaluation equals the
Chebyshev sum `Σ_k T k (a k)`. -/
lemma clenshaw_eq_sum (hK : 1 ≤ K1) :
    a 0 + f (clenSU f a K1 1) - clenSU f a K1 2
      = ∑ t ∈ Finset.range K1, chebT f t (a t) := by
  have hK0 : 0 < K1 := hK
  have ha0 : a 0 = ∑ t ∈ Finset.range K1, (if t = 0 then a t else 0) := by
    rw [Finset.sum_ite_eq' (Finset.range K1) 0 a]
    simp [Finset.mem_range, hK0]
  have hf : f (clenSU f a K1 1)
      = ∑ t ∈ Finset.range K1, (if 1 ≤ t then f (chebU f (t - 1) (a t)) else 0) := by
    rw [clenSU, map_sum]
    refine Finset.sum_congr rfl fun t _ => ?_
    split
    · rfl
    · simp
  rw [ha0, hf, clenSU, ← Finset.sum_add_distrib, ← Finset.sum_sub_distrib]
  refine Finset.sum_congr rfl fun t _ => ?_
  match t with
  | 0 => simp [chebT_zero]
  | 1 => simp [chebT_one, chebU_zero]
  | d+2 =>
    have h1 : ¬ d + 2 = 0 := by omega
    have h2 : 1 ≤ d + 2 := by omega
    have h3 : 2 ≤ d + 2 := by omega
    have hs1 : d + 2 - 1 = d + 1 := by omega
    have hs0 : d + 2 - 2 = d := by omega
    simp only [h1, h2, h3, hs1, hs0, if_true, if_false, chebT_eq_U]
    abel

end Clenshaw

/-- Abstract form of the forward loop of the recursive variants: `n` is the
number of remaining iterations, the second argument the current order `k`. -/
def recLoopAbs (f : V →ₗ[R] V) (g : Nat → V → W) : Nat → Nat → V × V → W → W
  | 0, _, _, acc => acc
  | n+1, k, (x0, x1), acc =>
    let x2 := (2 : R) • f x1 - x0
    recLoopAbs f g n (k+1) (x1, x2) (acc + g k x2)

lemma recLoopAbs_succ (f : V →ₗ[R] V) (g : Nat → V → W) (n k : Nat) (x0 x1 : V) (acc : W) :
    recLoopAbs f g (n+1) k (x0, x1) acc
      = recLoopAbs f g n (k+1) (x1, (2 : R) • f x1 - x0) (acc + g k ((2 : R) • f x1 - x0)) := rfl

/-- The forward loop started at order `k+2` on the buffers `T k s`, `T (k+1) s`
accumulates the mixed Chebyshev terms of orders `k+2, …, k+1+n`. -/
lemma recLoopAbs_spec (f : V →ₗ[R] V) (g : Nat → V → W) (s : V) :
    ∀ n k acc, recLoopAbs f g n (k+2) (chebT f k s, chebT f (k+1) s) acc
      = acc + ∑ j ∈ Finset.range n, g (k+2+j) (chebT f (k+2+j) s) := by
  intro n
  induction n with
  | zero => intro k acc; simp [recLoopAbs]
  | succ n ih =>
    intro k acc
    rw [recLoopAbs_succ]
    have hx2 : (2 : R) • f (chebT f (k+1) s) - chebT f k s = chebT f (k+2) s :=
      (chebT_add_two f k s).symm
    rw [hx2]
    have ih' : recLoopAbs f g n (k+3) (chebT f (k+1) s, chebT f (k+2) s)
          (acc + g (k+2) (chebT f (k+2) s))
        = (acc + g (k+2) (chebT f (k+2) s))
          + ∑ j ∈ Finset.range n, g (k+3+j) (chebT f (k+3+j) s) := ih (k+1) _
    rw [ih', Finset.sum_range_succ']
    have hidx : ∀ j : Nat, k + 2 + (j + 1) = k + 3 + j := fun j => by omega
    have hsum : (∑ j ∈ Finset.range n, g (k+2+(j+1)) (chebT f (k+2+(j+1)) s))
        = ∑ j ∈ Finset.range n, g (k+3+j) (chebT f (k+3+j) s) := by
      refine Finset.sum_congr rfl fun j _ => ?_
      rw [hidx j]
    rw [hsum]
    have h0 : k + 2 + 0 = k + 2 := by omega
    rw [h0]
    abel

end ChebAbstract

/-- Splitting off the first two terms of a `Finset.range (m+2)` sum. -/
lemma sum_range_two_split {A : Type} [AddCommMonoid A] (F : Nat → A) (m : Nat) :
    ∑ k ∈ Finset.range (m+2), F k = F 0 + F 1 + ∑ j ∈ Finset.range m, F (2+j) := by
  rw [Finset.sum_range_succ' F (m+1), Finset.sum_range_succ' (fun i => F (i+1)) m]
  have h : ∀ j, F (j+1+1) = F (2+j) := fun j => by
    have hj : j+1+1 = 2+j := by omega
    rw [hj]
  rw [Finset.sum_congr rfl (fun j _ => h j)]
  abel

/-!
### Instantiation for batch filtering (over `ℚ`)
-/

/-- `dotS L` as a linear map (diffusion is linear in the signal). -/
def dotLin {M F N : Nat} (L : Mat N) : Sig M F N →ₗ[ℚ] Sig M F N where
  toFun := dotS L
  map_add' x y := by
    funext m i n
    simp [dotS, add_mul, Finset.sum_add_distrib]
  map_smul' r x := by
    funext m i n
    simp [dotS, Finset.mul_sum, mul_assoc]

@[simp] lemma dotLin_apply {M F N : Nat} (L : Mat N) (x : Sig M F N) :
    dotLin L x = dotS L x := rfl

lemma dotS_zero {M F N : Nat} (L : Mat N) : dotS L (0 : Sig M F N) = 0 := by
  funext m i n
  simp [dotS]

lemma multC_smul {M Fi Fo N : Nat} (a : Fin Fo → Fin Fi → ℚ) (r : ℚ) (x : Sig M Fi N) :
    multC a (r • x) = r • multC a x := by
  funext m o n
  simp [multC, Finset.mul_sum, mul_left_comm]

lemma multC_sub {M Fi Fo N : Nat} (a : Fin Fo → Fin Fi → ℚ) (x y : Sig M Fi N) :
    multC a (x - y) = multC a x - multC a y := by
  funext m o n
  simp [multC, mul_sub, Finset.sum_sub_distrib]

/-- Diffusion commutes with channel mixing: the two contractions act on
different indices. -/
lemma dotS_multC {M Fi Fo N : Nat} (L : Mat N) (a : Fin Fo → Fin Fi → ℚ)
    (x : Sig M Fi N) : dotS L (multC a x) = multC a (dotS L x) := by
  funext m o n
  simp only [dotS, multC, Finset.sum_mul, Finset.mul_sum]
  rw [Finset.sum_comm]
  exact Finset.sum_congr rfl fun j _ => Finset.sum_congr rfl fun i _ => by ring

/-- Chebyshev diffusion commutes with channel mixing. -/
lemma chebT_multC {M Fi Fo N : Nat} (L : Mat N) (a : Fin Fo → Fin Fi → ℚ) :
    ∀ (k : Nat) (x : Sig M Fi N),
      chebT (dotLin L) k (multC a x) = multC a (chebT (dotLin L) k x) := by
  intro k
  induction k using Nat.twoStepInduction with
  | zero => intro x; rfl
  | one =>
    intro x
    show dotLin L (multC a x) = multC a (dotLin L x)
    simp [dotS_multC]
  | more n ih1 ih2 =>
    intro x
    rw [chebT_add_two, chebT_add_two, ih1, ih2]
    simp only [dotLin_apply, multC_sub, multC_smul, ← dotS_multC]

/-- The recursive filtering loop is an instance of the abstract forward loop. -/
lemma filterRecLoop_eq_abs {M Fi Fo N : Nat} (L : Mat N)
    (c : Nat → Fin Fo → Fin Fi → ℚ) :
    ∀ (n k : Nat) (st : Sig M Fi N × Sig M Fi N) (acc : Sig M Fo N),
      filterRecLoop L c n k st acc
        = recLoopAbs (dotLin L) (fun t x => multC (c t) x) n k st acc := by
  intro n
  induction n with
  | zero => intro k st acc; cases st; rfl
  | succ n ih =>
    intro k st acc
    cases st with
    | mk x0 x1 =>
      show filterRecLoop L c n (k+1) (x1, (2:ℚ) • dotS L x1 - x0)
          (acc + multC (c k) ((2:ℚ) • dotS L x1 - x0)) = _
      rw [ih]
      rfl

/-- The Clenshaw filtering loop is an instance of the abstract backward loop
(for in-range loop indices). -/
lemma filterClenLoop_eq_abs {M Fi Fo N : Nat} (L : Mat N)
    (c : Nat → Fin Fo → Fin Fi → ℚ) (s : Sig M Fi N) (K1 : Nat) :
    ∀ k, k < K1 → ∀ st, filterClenLoop L c s k st
      = clenLoopAbs (dotLin L) (fun t => if t < K1 then multC (c t) s else 0) k st := by
  intro k
  induction k with
  | zero => intro _ st; cases st; rfl
  | succ k ih =>
    intro hk st
    cases st with
    | mk b2 b1 =>
      show filterClenLoop L c s k (b1, multC (c (k+1)) s + (2:ℚ) • dotS L b1 - b2) = _
      rw [ih (by omega), clenLoopAbs_succ]
      simp only [if_pos hk]
      rfl

/-- `Chebyshev._filter_recursive` computes the channel-mixed Chebyshev sum
`Σ_k mult(c[k], T_k(L) s)`. -/
lemma filterRecursive_eq_sum {M Fi Fo N : Nat} (L : Mat N)
    (c : Nat → Fin Fo → Fin Fi → ℚ) (K1 : Nat) (s : Sig M Fi N) (hK : 1 ≤ K1) :
    filterRecursive L c K1 s
      = ∑ k ∈ Finset.range K1, multC (c k) (chebT (dotLin L) k s) := by
  by_cases h2 : 2 ≤ K1
  · obtain ⟨m, rfl⟩ : ∃ m, K1 = m + 2 := ⟨K1 - 2, by omega⟩
    have hunf : filterRecursive L c (m+2) s
        = filterRecLoop L c m 2 (s, dotS L s)
            (multC (c 0) s + multC (c 1) (dotS L s)) := by
      show (if 2 ≤ m+2 then
              filterRecLoop L c (m+2-2) 2 (s, dotS L s)
                (multC (c 0) s + multC (c 1) (dotS L s))
            else multC (c 0) s) = _
      rw [if_pos h2]
      rfl
    rw [hunf, filterRecLoop_eq_abs]
    have hspec := recLoopAbs_spec (dotLin L) (fun t x => multC (c t) x) s m 0
      (multC (c 0) s + multC (c 1) (dotS L s))
    have hspec' : recLoopAbs (dotLin L) (fun t x => multC (c t) x) m 2 (s, dotS L s)
          (multC (c 0) s + multC (c 1) (dotS L s))
        = (multC (c 0) s + multC (c 1) (dotS L s))
          + ∑ j ∈ Finset.range m, multC (c (2+j)) (chebT (dotLin L) (2+j) s) := hspec
    rw [hspec', sum_range_two_split (fun k => multC (c k) (chebT (dotLin L) k s)) m]
    have h0 : multC (c 0) (chebT (dotLin L) 0 s) = multC (c 0) s := rfl
    have h1 : multC (c 1) (chebT (dotLin L) 1 s) = multC (c 1) (dotS L s) := rfl
    rw [h0, h1]
  · have h1 : K1 = 1 := by omega
    subst h1
    have hunf : filterRecursive L c 1 s = multC (c 0) s := by
      show (if 2 ≤ 1 then
              filterRecLoop L c (1-2) 2 (s, dotS L s)
                (multC (c 0) s + multC (c 1) (dotS L s))
            else multC (c 0) s) = _
      rw [if_neg (by omega : ¬ 2 ≤ 1)]
    rw [hunf, Finset.sum_range_one]
    rfl

/-- `Chebyshev._filter_clenshaw` computes the Chebyshev sum
`Σ_k T_k(L) (mult(c[k], s))`. -/
lemma filterClenshaw_eq_sum {M Fi Fo N : Nat} (L : Mat N)
    (c : Nat → Fin Fo → Fin Fi → ℚ) (K1 : Nat) (s : Sig M Fi N) (hK : 1 ≤ K1) :
    filterClenshaw L c K1 s
      = ∑ k ∈ Finset.range K1, chebT (dotLin L) k (multC (c k) s) := by
  by_cases h2 : 2 ≤ K1
  · obtain ⟨m, rfl⟩ : ∃ m, K1 = m + 2 := ⟨K1 - 2, by omega⟩
    set a : Nat → Sig M Fo N := fun t => if t < m + 2 then multC (c t) s else 0 with ha_def
    have ha : ∀ t, m + 2 ≤ t → a t = 0 := fun t ht => by
      rw [ha_def]
      simp only [if_neg (by omega : ¬ t < m + 2)]
    have hunf : filterClenshaw L c (m+2) s
        = multC (c 0) s
          + dotS L (filterClenLoop L c s m (0, multC (c (m+1)) s)).2
          - (filterClenLoop L c s m (0, multC (c (m+1)) s)).1 := by
      show multC (c 0) s
          + dotS L (filterClenLoop L c s (m+2-2)
              (0, if 2 ≤ m+2 then multC (c (m+2-1)) s else 0)).2
          - (filterClenLoop L c s (m+2-2)
              (0, if 2 ≤ m+2 then multC (c (m+2-1)) s else 0)).1 = _
      rw [if_pos h2]
      rfl
    have hbridge : filterClenLoop L c s m (0, multC (c (m+1)) s)
        = clenLoopAbs (dotLin L) a m (0, multC (c (m+1)) s) := by
      rw [filterClenLoop_eq_abs L c s (m+2) m (by omega), ← ha_def]
    have htop : clenSU (dotLin L) a (m+2) (m+2) = 0 :=
      clenSU_top (dotLin L) a (m+2) (m+2) (le_refl _)
    have hlast : clenSU (dotLin L) a (m+2) (m+1) = a (m+1) :=
      clenSU_last (dotLin L) a (m+1)
    have hb1 : multC (c (m+1)) s = a (m+1) := by
      rw [ha_def]
      simp only [if_pos (by omega : m+1 < m+2)]
    have hinv := clenLoopAbs_inv (dotLin L) a (m+2) ha m
    rw [htop, hlast] at hinv
    have ha0 : multC (c 0) s = a 0 := by
      rw [ha_def]
      simp only [if_pos (by omega : 0 < m+2)]
    have hfin := clenshaw_eq_sum (dotLin L) a (m+2) (by omega)
    simp only [dotLin_apply] at hfin
    rw [hunf, hbridge, hb1, hinv, ha0]
    show a 0 + dotS L (clenSU (dotLin L) a (m+2) 1) - clenSU (dotLin L) a (m+2) 2 = _
    rw [hfin]
    refine Finset.sum_congr rfl fun k hk => ?_
    rw [Finset.mem_range] at hk
    rw [ha_def]
    simp only [if_pos hk]
  · have h1 : K1 = 1 := by omega
    subst h1
    have hunf : filterClenshaw L c 1 s = multC (c 0) s + dotS L 0 - 0 := by
      show multC (c 0) s
          + dotS L (filterClenLoop L c s (1-2)
              (0, if 2 ≤ 1 then multC (c (1-1)) s else 0)).2
          - (filterClenLoop L c s (1-2)
              (0, if 2 ≤ 1 then multC (c (1-1)) s else 0)).1 = _
      rw [if_neg (by omega : ¬ 2 ≤ 1)]
      rfl
    rw [hunf, Finset.sum_range_one, dotS_zero, chebT_zero]
    abel

/-!
### Instantiation for scalar evaluation (over `ℝ`)
-/

/-- Multiplication by the fixed (rescaled) point `x` as a linear map. -/
def mulLin (x : ℝ) : ℝ →ₗ[ℝ] ℝ where
  toFun y := x * y
  map_add' a b := by ring
  map_smul' r a := by
    simp only [smul_eq_mul, RingHom.id_apply]
    ring

@[simp] lemma mulLin_apply (x y : ℝ) : mulLin x y = x * y := rfl

/-- Scalar Chebyshev polynomial values `T_k(x)` by the three-term recurrence. -/
def tval (x : ℝ) : Nat → ℝ
  | 0 => 1
  | 1 => x
  | k+2 => 2 * x * tval x (k+1) - tval x k

lemma tval_zero (x : ℝ) : tval x 0 = 1 := rfl

lemma tval_one (x : ℝ) : tval x 1 = x := rfl

lemma tval_add_two (x : ℝ) (k : Nat) :
    tval x (k+2) = 2 * x * tval x (k+1) - tval x k := rfl

lemma chebT_mulLin (x : ℝ) :
    ∀ (k : Nat) (v : ℝ), chebT (mulLin x) k v = tval x k * v := by
  intro k
  induction k using Nat.twoStepInduction with
  | zero => intro v; rw [chebT_zero, tval_zero, one_mul]
  | one => intro v; rw [chebT_one, tval_one, mulLin_apply]
  | more n ih1 ih2 =>
    intro v
    rw [chebT_add_two, ih1, ih2, tval_add_two]
    simp only [mulLin_apply, smul_eq_mul]
    ring

/-- On `cos θ` the recurrence values are `cos (k θ)` — the defining property
of Chebyshev polynomials on `[-1, 1]`. -/
lemma tval_cos (θ : ℝ) : ∀ k : Nat, tval (Real.cos θ) k = Real.cos (k * θ) := by
  intro k
  induction k using Nat.twoStepInduction with
  | zero => simp [tval_zero]
  | one => simp [tval_one]
  | more n ih1 ih2 =>
    rw [tval_add_two, ih1, ih2]
    have e1 : ((n + 2 : Nat) : ℝ) * θ = ((n + 1 : Nat) : ℝ) * θ + θ := by
      push_cast
      ring
    have e2 : ((n : Nat) : ℝ) * θ = ((n + 1 : Nat) : ℝ) * θ - θ := by
      push_cast
      ring
    rw [e1, e2, Real.cos_add, Real.cos_sub]
    ring

/-- `Chebyshev._evaluate_direct` computes the Chebyshev sum, for arguments in
the orthonormality domain `[-1, 1]`. -/
lemma evaluateDirect_eq_sum (c : Nat → ℝ) (K1 : Nat) (y : ℝ)
    (h1 : -1 ≤ y) (h2 : y ≤ 1) :
    evaluateDirect c K1 y = ∑ k ∈ Finset.range K1, c k * tval y k := by
  unfold evaluateDirect
  refine Finset.sum_congr rfl fun k _ => ?_
  have h := tval_cos (Real.arccos y) k
  rw [Real.cos_arccos h1 h2] at h
  rw [h]

/-- The scalar recursive loop is an instance of the abstract forward loop. -/
lemma evalRecLoop_eq_abs (c : Nat → ℝ) (x : ℝ) :
    ∀ (n k : Nat) (st : ℝ × ℝ) (acc : ℝ),
      evalRecLoop c x n k st acc
        = recLoopAbs (mulLin x) (fun t v => c t * v) n k st acc := by
  intro n
  induction n with
  | zero => intro k st acc; cases st; rfl
  | succ n ih =>
    intro k st acc
    cases st with
    | mk x0 x1 =>
      show evalRecLoop c x n (k+1) (x1, 2 * x * x1 - x0) (acc + c k * (2 * x * x1 - x0)) = _
      rw [recLoopAbs_succ]
      have hx : (2:ℝ) • mulLin x x1 - x0 = 2 * x * x1 - x0 := by
        simp only [mulLin_apply, smul_eq_mul]
        ring
      rw [hx, ih]

/-- The scalar Clenshaw loop is an instance of the abstract backward loop
(for in-range loop indices). -/
lemma evalClenLoop_eq_abs (c : Nat → ℝ) (x : ℝ) (K1 : Nat) :
    ∀ k, k < K1 → ∀ st, evalClenLoop c x k st
      = clenLoopAbs (mulLin x) (fun t => if t < K1 then c t else 0) k st := by
  intro k
  induction k with
  | zero => intro _ st; cases st; rfl
  | succ k ih =>
    intro hk st
    cases st with
    | mk b2 b1 =>
      show evalClenLoop c x k (b1, c (k+1) + 2 * x * b1 - b2) = _
      rw [ih (by omega), clenLoopAbs_succ]
      simp only [if_pos hk, mulLin_apply, smul_eq_mul, mul_assoc]

/-- `Chebyshev._evaluate_recursive` computes the Chebyshev sum. -/
lemma evaluateRecursive_eq_sum (c : Nat → ℝ) (K1 : Nat) (x : ℝ) (hK : 1 ≤ K1) :
    evaluateRecursive c K1 x = ∑ k ∈ Finset.range K1, c k * tval x k := by
  by_cases h2 : 2 ≤ K1
  · obtain ⟨m, rfl⟩ : ∃ m, K1 = m + 2 := ⟨K1 - 2, by omega⟩
    have hunf : evaluateRecursive c (m+2) x
        = evalRecLoop c x m 2 (1, x) (c 0 * 1 + c 1 * x) := by
      show (if 2 ≤ m+2 then
              evalRecLoop c x (m+2-2) 2 (1, x) (c 0 * 1 + c 1 * x)
            else c 0 * 1) = _
      rw [if_pos h2]
      rfl
    have hspec := recLoopAbs_spec (mulLin x) (fun t v => c t * v) 1 m 0 (c 0 * 1 + c 1 * x)
    simp only [Nat.zero_add, chebT_zero, chebT_one, chebT_mulLin, mulLin_apply,
      mul_one] at hspec
    rw [hunf, evalRecLoop_eq_abs, sum_range_two_split (fun k => c k * tval x k) m]
    simp only [tval_zero, tval_one, mul_one]
    rw [hspec]
  · have h1 : K1 = 1 := by omega
    subst h1
    have hunf : evaluateRecursive c 1 x = c 0 * 1 := by
      show (if 2 ≤ 1 then
              evalRecLoop c x (1-2) 2 (1, x) (c 0 * 1 + c 1 * x)
            else c 0 * 1) = _
      rw [if_neg (by omega : ¬ 2 ≤ 1)]
    rw [hunf, Finset.sum_range_one, tval_zero]

/-- `Chebyshev._evaluate_clenshaw` computes the Chebyshev sum. -/
lemma evaluateClenshaw_eq_sum (c : Nat → ℝ) (K1 : Nat) (x : ℝ) (hK : 1 ≤ K1) :
    evaluateClenshaw c K1 x = ∑ k ∈ Finset.range K1, c k * tval x k := by
  by_cases h2 : 2 ≤ K1
  · obtain ⟨m, rfl⟩ : ∃ m, K1 = m + 2 := ⟨K1 - 2, by omega⟩
    set a : Nat → ℝ := fun t => if t < m + 2 then c t else 0 with ha_def
    have ha : ∀ t, m + 2 ≤ t → a t = 0 := fun t ht => by
      rw [ha_def]
      simp only [if_neg (by omega : ¬ t < m + 2)]
    have hunf : evaluateClenshaw c (m+2) x
        = c 0 + x * (evalClenLoop c x m (0, c (m+1))).2
          - (evalClenLoop c x m (0, c (m+1))).1 := by
      show c 0 + x * (evalClenLoop c x (m+2-2)
              (0, if 2 ≤ m+2 then c (m+2-1) else 0)).2
          - (evalClenLoop c x (m+2-2)
              (0, if 2 ≤ m+2 then c (m+2-1) else 0)).1 = _
      rw [if_pos h2]
      rfl
    have hbridge : evalClenLoop c x m (0, c (m+1))
        = clenLoopAbs (mulLin x) a m (0, c (m+1)) := by
      rw [evalClenLoop_eq_abs c x (m+2) m (by omega), ← ha_def]
    have htop : clenSU (mulLin x) a (m+2) (m+2) = 0 :=
      clenSU_top (mulLin x) a (m+2) (m+2) (le_refl _)
    have hlast : clenSU (mulLin x) a (m+2) (m+1) = a (m+1) :=
      clenSU_last (mulLin x) a (m+1)
    have hb1 : c (m+1) = a (m+1) := by
      rw [ha_def]
      simp only [if_pos (by omega : m+1 < m+2)]
    have hinv := clenLoopAbs_inv (mulLin x) a (m+2) ha m
    rw [htop, hlast] at hinv
    have ha0 : c 0 = a 0 := by
      rw [ha_def]
      simp only [if_pos (by omega : 0 < m+2)]
    have hfin := clenshaw_eq_sum (mulLin x) a (m+2) (by omega)
    simp only [mulLin_apply] at hfin
    rw [hunf, hbridge, hb1, hinv, ha0]
    show a 0 + x * clenSU (mulLin x) a (m+2) 1 - clenSU (mulLin x) a (m+2) 2 = _
    rw [hfin]
    refine Finset.sum_congr rfl fun k hk => ?_
    rw [Finset.mem_range] at hk
    rw [chebT_mulLin]
    rw [ha_def]
    simp only [if_pos hk]
    ring
  · have h1 : K1 = 1 := by omega
    subst h1
    have hunf : evaluateClenshaw c 1 x = c 0 + x * 0 - 0 := by
      show c 0 + x * (evalClenLoop c x (1-2)
              (0, if 2 ≤ 1 then c (1-1) else 0)).2
          - (evalClenLoop c x (1-2)
              (0, if 2 ≤ 1 then c (1-1) else 0)).1 = _
      rw [if_neg (by omega : ¬ 2 ≤ 1)]
      rfl
    rw [hunf, Finset.sum_range_one, tval_zero]
    ring

/-!
### Method dispatch reductions
-/

lemma chebyshevFilter_recursive {M Fi Fo N : Nat} (L : Mat N) (lmax : ℚ)
    (c : Nat → Fin Fo → Fin Fi → ℚ) (K1 : Nat) (s : Sig M Fi N) :
    chebyshevFilter L lmax c K1 s (some "recursive")
      = .ok (filterRecursive (rescaleL L lmax) c K1 s) := by
  show (if ("recursive" : String) = "recursive" then
          Except.ok (filterRecursive (rescaleL L lmax) c K1 s)
        else if ("recursive" : String) = "clenshaw" then
          Except.ok (filterClenshaw (rescaleL L lmax) c K1 s)
        else .error ("Unknown method " ++ "recursive" ++ ".")) = _
  rw [if_pos rfl]

lemma chebyshevFilter_clenshaw {M Fi Fo N : Nat} (L : Mat N) (lmax : ℚ)
    (c : Nat → Fin Fo → Fin Fi → ℚ) (K1 : Nat) (s : Sig M Fi N) :
    chebyshevFilter L lmax c K1 s (some "clenshaw")
      = .ok (filterClenshaw (rescaleL L lmax) c K1 s) := by
  show (if ("clenshaw" : String) = "recursive" then
          Except.ok (filterRecursive (rescaleL L lmax) c K1 s)
        else if ("clenshaw" : String) = "clenshaw" then
          Except.ok (filterClenshaw (rescaleL L lmax) c K1 s)
        else .error ("Unknown method " ++ "clenshaw" ++ ".")) = _
  rw [if_neg (by decide), if_pos rfl]

lemma chebyshevEvaluate_direct (lmax : ℝ) (c : Nat → ℝ) (K1 : Nat) (x : ℝ) :
    chebyshevEvaluate lmax c K1 x (some "direct")
      = .ok (evaluateDirect c K1 (2 * x / lmax - 1)) := by
  show (if ("direct" : String) = "direct" then
          Except.ok (evaluateDirect c K1 (2 * x / lmax - 1))
        else if ("direct" : String) = "recursive" then
          Except.ok (evaluateRecursive c K1 (2 * x / lmax - 1))
        else if ("direct" : String) = "clenshaw" then
          Except.ok (evaluateClenshaw c K1 (2 * x / lmax - 1))
        else .error ("Unknown method " ++ "direct" ++ ".")) = _
  rw [if_pos rfl]

lemma chebyshevEvaluate_recursive (lmax : ℝ) (c : Nat → ℝ) (K1 : Nat) (x : ℝ) :
    chebyshevEvaluate lmax c K1 x (some "recursive")
      = .ok (evaluateRecursive c K1 (2 * x / lmax - 1)) := by
  show (if ("recursive" : String) = "direct" then
          Except.ok (evaluateDirect c K1 (2 * x / lmax - 1))
        else if ("recursive" : String) = "recursive" then
          Except.ok (evaluateRecursive c K1 (2 * x / lmax - 1))
        else if ("recursive" : String) = "clenshaw" then
          Except.ok (evaluateClenshaw c K1 (2 * x / lmax - 1))
        else .error ("Unknown method " ++ "recursive" ++ ".")) = _
  rw [if_neg (by decide), if_pos rfl]

lemma chebyshevEvaluate_clenshaw (lmax : ℝ) (c : Nat → ℝ) (K1 : Nat) (x : ℝ) :
    chebyshevEvaluate lmax c K1 x (some "clenshaw")
      = .ok (evaluateClenshaw c K1 (2 * x / lmax - 1)) := by
  show (if ("clenshaw" : String) = "direct" then
          Except.ok (evaluateDirect c K1 (2 * x / lmax - 1))
        else if ("clenshaw" : String) = "recursive" then
          Except.ok (evaluateRecursive c K1 (2 * x / lmax - 1))
        else if ("clenshaw" : String) = "clenshaw" then
          Except.ok (evaluateClenshaw c K1 (2 * x / lmax - 1))
        else .error ("Unknown method " ++ "clenshaw" ++ ".")) = _
  rw [if_neg (by decide), if_neg (by decide), if_pos rfl]

/-!
### The claim formula for recursive filtering (C1)
-/

/-- One diffusion step on a single signal vector: `x ↦ x @ L`. -/
def vecDot {N : Nat} (L : Mat N) (x : Fin N → ℚ) : Fin N → ℚ :=
  fun n => ∑ j, x j * L j n

/-- The claim's per-vector diffused-signal sequence:
`T_0 x = x`, `T_1 x = x·L'`, `T_k x = 2 (T_{k-1} x)·L' - T_{k-2} x`
(the code multiplies the stacked signal matrix by the rescaled Laplacian on
the right). -/
def chebVecT {N : Nat} (L : Mat N) (x : Fin N → ℚ) : Nat → Fin N → ℚ
  | 0 => x
  | 1 => vecDot L x
  | k+2 => (2:ℚ) • vecDot L (chebVecT L x (k+1)) - chebVecT L x k

lemma chebT_apply_vec {M Fi N : Nat} (L : Mat N) (s : Sig M Fi N) :
    ∀ (k : Nat) (m : Fin M) (i : Fin Fi),
      chebT (dotLin L) k s m i = chebVecT L (s m i) k := by
  intro k
  induction k using Nat.twoStepInduction with
  | zero => intro m i; rfl
  | one => intro m i; rfl
  | more n ih1 ih2 =>
    intro m i
    show (2:ℚ) • vecDot L (chebT (dotLin L) (n+1) s m i) - chebT (dotLin L) n s m i
        = chebVecT L (s m i) (n+2)
    rw [ih2, ih1]
    rfl

/-- **C1** — filtering with method `"recursive"` rescales the operator to
`L' = 2L/lmax - I` and returns the batch whose entry for signal `m`, output
channel `o` is `Σ_k Σ_i c[k,o,i] · (T_k(L') s[m,i]) n`, where the `T_k` obey
the three-term Chebyshev recurrence. -/
theorem filter_recursive_formula {M Fi Fo N : Nat} (L : Mat N) (lmax : ℚ)
    (c : Nat → Fin Fo → Fin Fi → ℚ) (K : Nat) (s : Sig M Fi N) (_hl : 0 < lmax) :
    chebyshevFilter L lmax c (K+1) s (some "recursive")
      = .ok (fun m o n => ∑ k ∈ Finset.range (K+1), ∑ i,
          c k o i * chebVecT (rescaleL L lmax) (s m i) k n) := by
  rw [chebyshevFilter_recursive, filterRecursive_eq_sum _ c (K+1) s (by omega)]
  congr 1
  funext m o n
  simp only [Finset.sum_apply]
  refine Finset.sum_congr rfl fun k _ => ?_
  show (∑ i, c k o i * chebT (dotLin (rescaleL L lmax)) k s m i n) = _
  refine Finset.sum_congr rfl fun i _ => ?_
  rw [chebT_apply_vec]

/-- Witness for C1 at a concrete instance. -/
theorem filter_recursive_formula_witness :
    (0 : ℚ) < 2 ∧
    chebyshevFilter ((fun _ _ => 2) : Mat 1) 2
        ((fun _ _ _ => 1) : Nat → Fin 1 → Fin 1 → ℚ) 2
        ((fun _ _ _ => 1) : Sig 1 1 1) (some "recursive")
      = .ok (fun m o n => ∑ k ∈ Finset.range 2, ∑ i,
          (fun (_ : Nat) (_ : Fin 1) (_ : Fin 1) => (1:ℚ)) k o i
            * chebVecT (rescaleL (fun _ _ => 2) 2) ((fun (_ : Fin 1) (_ : Fin 1) (_ : Fin 1) => (1:ℚ)) m i) k n) :=
  ⟨by norm_num,
   filter_recursive_formula (fun _ _ => 2) 2 (fun _ _ _ => 1) 1 (fun _ _ _ => 1) (by norm_num)⟩

/-- **C4** — filtering with `"recursive"` and with `"clenshaw"` agree exactly
(over exact arithmetic). -/
theorem filter_recursive_eq_clenshaw {M Fi Fo N : Nat} (L : Mat N) (lmax : ℚ)
    (c : Nat → Fin Fo → Fin Fi → ℚ) (K : Nat) (s : Sig M Fi N) (_hl : 0 < lmax) :
    chebyshevFilter L lmax c (K+1) s (some "recursive")
      = chebyshevFilter L lmax c (K+1) s (some "clenshaw") := by
  rw [chebyshevFilter_recursive, chebyshevFilter_clenshaw]
  congr 1
  rw [filterRecursive_eq_sum _ c (K+1) s (by omega),
    filterClenshaw_eq_sum _ c (K+1) s (by omega)]
  exact Finset.sum_congr rfl fun k _ => (chebT_multC _ (c k) k s).symm

/-- Witness for C4 at a concrete instance. -/
theorem filter_recursive_eq_clenshaw_witness :
    (0 : ℚ) < 2 ∧
    chebyshevFilter ((fun _ _ => 2) : Mat 1) 2
        ((fun _ _ _ => 1) : Nat → Fin 1 → Fin 1 → ℚ) 3
        ((fun _ _ _ => 1) : Sig 1 1 1) (some "recursive")
      = chebyshevFilter ((fun _ _ => 2) : Mat 1) 2
        ((fun _ _ _ => 1) : Nat → Fin 1 → Fin 1 → ℚ) 3
        ((fun _ _ _ => 1) : Sig 1 1 1) (some "clenshaw") :=
  ⟨by norm_num,
   filter_recursive_eq_clenshaw (fun _ _ => 2) 2 (fun _ _ _ => 1) 2 (fun _ _ _ => 1) (by norm_num)⟩

/-- **C5** — with a single order-0 coefficient `c0` (tensor of shape
`(1,1,1)`), both filtering methods return exactly `c0 * s`. -/
theorem filter_order_zero_scales {M N : Nat} (L : Mat N) (lmax : ℚ)
    (c : Nat → Fin 1 → Fin 1 → ℚ) (s : Sig M 1 N) :
    chebyshevFilter L lmax c 1 s (some "recursive")
        = .ok (fun m (_o : Fin 1) n => c 0 0 0 * s m 0 n)
    ∧ chebyshevFilter L lmax c 1 s (some "clenshaw")
        = .ok (fun m (_o : Fin 1) n => c 0 0 0 * s m 0 n) := by
  have hmul : multC (c 0) s = fun m (_o : Fin 1) n => c 0 0 0 * s m 0 n := by
    funext m o n
    show (∑ i, c 0 o i * s m i n) = c 0 0 0 * s m 0 n
    rw [Fin.sum_univ_one, Fin.eq_zero o]
  constructor
  · rw [chebyshevFilter_recursive, filterRecursive_eq_sum _ c 1 s (le_refl 1),
      Finset.sum_range_one, chebT_zero, hmul]
  · rw [chebyshevFilter_clenshaw, filterClenshaw_eq_sum _ c 1 s (le_refl 1),
      Finset.sum_range_one, chebT_zero, hmul]

/-- **C3** — for arguments whose rescaled value lies in `[-1, 1]`, the three
evaluation methods agree exactly over the reals. -/
theorem evaluate_three_methods_agree (lmax : ℝ) (c : Nat → ℝ) (K : Nat) (x : ℝ)
    (h1 : -1 ≤ 2 * x / lmax - 1) (h2 : 2 * x / lmax - 1 ≤ 1) :
    chebyshevEvaluate lmax c (K+1) x (some "direct")
        = chebyshevEvaluate lmax c (K+1) x (some "recursive")
    ∧ chebyshevEvaluate lmax c (K+1) x (some "recursive")
        = chebyshevEvaluate lmax c (K+1) x (some "clenshaw") := by
  rw [chebyshevEvaluate_direct, chebyshevEvaluate_recursive, chebyshevEvaluate_clenshaw]
  rw [evaluateDirect_eq_sum c (K+1) _ h1 h2,
    evaluateRecursive_eq_sum c (K+1) _ (by omega),
    evaluateClenshaw_eq_sum c (K+1) _ (by omega)]
  exact ⟨rfl, rfl⟩

/-- Witness for C3 at a concrete instance. -/
theorem evaluate_three_methods_agree_witness :
    ((-1:ℝ) ≤ 2 * (1/2) / 2 - 1) ∧ (2 * (1/2) / 2 - 1 ≤ (1:ℝ)) ∧
    (chebyshevEvaluate 2 (fun k => (k:ℝ)) 3 (1/2) (some "direct")
        = chebyshevEvaluate 2 (fun k => (k:ℝ)) 3 (1/2) (some "recursive")
    ∧ chebyshevEvaluate 2 (fun k => (k:ℝ)) 3 (1/2) (some "recursive")
        = chebyshevEvaluate 2 (fun k => (k:ℝ)) 3 (1/2) (some "clenshaw")) :=
  ⟨by norm_num, by norm_num,
   evaluate_three_methods_agree 2 (fun k => (k:ℝ)) 2 (1/2) (by norm_num) (by norm_num)⟩

/-- **C6** — any method name other than the defined algorithms is rejected
with `ValueError('Unknown method {}.')` (the code's realization of
`InvalidArgument`); for filtering, `"direct"` is not available either. -/
theorem unknown_method_rejected {M Fi Fo N : Nat} (L : Mat N) (lmaxQ : ℚ)
    (lmaxR : ℝ) (c : Nat → Fin Fo → Fin Fi → ℚ) (cR : Nat → ℝ) (K1 : Nat)
    (s : Sig M Fi N) (x : ℝ) (meth : String) :
    (meth ≠ "direct" → meth ≠ "recursive" → meth ≠ "clenshaw" →
      chebyshevEvaluate lmaxR cR K1 x (some meth)
        = .error ("Unknown method " ++ meth ++ "."))
    ∧ (meth ≠ "recursive" → meth ≠ "clenshaw" →
      chebyshevFilter L lmaxQ c K1 s (some meth)
        = .error ("Unknown method " ++ meth ++ ".")) := by
  constructor
  · intro hd hr hc
    show (if meth = "direct" then
            Except.ok (evaluateDirect cR K1 (2 * x / lmaxR - 1))
          else if meth = "recursive" then
            Except.ok (evaluateRecursive cR K1 (2 * x / lmaxR - 1))
          else if meth = "clenshaw" then
            Except.ok (evaluateClenshaw cR K1 (2 * x / lmaxR - 1))
          else .error ("Unknown method " ++ meth ++ ".")) = _
    rw [if_neg hd, if_neg hr, if_neg hc]
  · intro hr hc
    show (if meth = "recursive" then
            Except.ok (filterRecursive (rescaleL L lmaxQ) c K1 s)
          else if meth = "clenshaw" then
            Except.ok (filterClenshaw (rescaleL L lmaxQ) c K1 s)
          else .error ("Unknown method " ++ meth ++ ".")) = _
    rw [if_neg hr, if_neg hc]

/-- Witness for C6: `evaluate` with `"bogus"` and `filter` with `"direct"`
both return the error. -/
theorem unknown_method_rejected_witness :
    chebyshevEvaluate (1:ℝ) (fun _ => 0) 1 0 (some "bogus")
        = .error ("Unknown method " ++ "bogus" ++ ".")
    ∧ chebyshevFilter ((fun _ _ => 0) : Mat 1) 1
        ((fun _ _ _ => 0) : Nat → Fin 1 → Fin 1 → ℚ) 1
        ((fun _ _ _ => 0) : Sig 1 1 1) (some "direct")
        = .error ("Unknown method " ++ "direct" ++ ".") :=
  ⟨(unknown_method_rejected ((fun _ _ => 0) : Mat 1) 1 1
      ((fun _ _ _ => 0) : Nat → Fin 1 → Fin 1 → ℚ) (fun _ => 0) 1
      ((fun _ _ _ => 0) : Sig 1 1 1) 0 "bogus").1
      (by decide) (by decide) (by decide),
   (unknown_method_rejected ((fun _ _ => 0) : Mat 1) 1 1
      ((fun _ _ _ => 0) : Nat → Fin 1 → Fin 1 → ℚ) (fun _ => 0) 1
      ((fun _ _ _ => 0) : Sig 1 1 1) 0 "direct").2 (by decide) (by decide)⟩

/-!
### Coefficient computation (`compute_cheby_coeff` in `pygsp/operators.py`)
-/

/-- The quadrature grid size: `if not N: N = m + 1` (both `None` and `0` are
falsy in Python). -/
def chebyGridSize (m : Nat) (Nopt : Option Nat) : Nat :=
  match Nopt with
  | none => m + 1
  | some 0 => m + 1
  | some (n+1) => n + 1

/-- `compute_cheby_coeff(f, G, m, N)` from `pygsp/operators.py`, for a single
(vectorized) kernel `f` (`f.g[i]`), modelled over `ℝ`.  Faithful to the
source:

* `a_arange = range(0, int(G.lmax))`; `a1 = (a_arange[2]-a_arange[1])/2`;
  `a2 = (a_arange[2]+a_arange[1])/2` — the indexing raises `IndexError`
  (here `none`) whenever `int(lmax) < 3`, and otherwise yields the constants
  `a1 = 1/2`, `a2 = 3/2` regardless of `lmax`;
* the sum runs over `np.arange(1, N)`, i.e. the `N-1` integers `1..N-1`;
* the summand is `f(a1 * cos(pi*(j-0.5)) / N) + a2 * cos(pi*(o-1)*(j-0.5)/N)`
  (the division by `N` sits outside the first cosine, the kernel value and
  the order-`o` cosine are added, and the order is `o-1`);
* the result is `np.sum(...) * 2 / N`. -/
noncomputable def compute_cheby_coeff (f : ℝ → ℝ) (lmax : ℝ) (m : Nat)
    (Nopt : Option Nat) : Option (Nat → ℝ) :=
  match ((List.range (Int.toNat ⌊lmax⌋))[2]? : Option Nat),
      ((List.range (Int.toNat ⌊lmax⌋))[1]? : Option Nat) with
  | some r2, some r1 =>
    some (fun o =>
      (∑ j ∈ Finset.Ico 1 (chebyGridSize m Nopt),
        (f (((r2:ℝ) - (r1:ℝ)) / 2 * Real.cos (Real.pi * ((j:ℝ) - 0.5))
              / (chebyGridSize m Nopt))
          + ((r2:ℝ) + (r1:ℝ)) / 2
            * Real.cos (Real.pi * ((o:ℝ) - 1) * ((j:ℝ) - 0.5)
                / (chebyGridSize m Nopt))))
        * 2 / (chebyGridSize m Nopt))
  | _, _ => none

/-- Modelled from the claim (C2): Chebyshev–Gauss quadrature,
`c[o] = (2/N) Σ_{j=1}^{N} f(node_j) cos(o π (j-0.5)/N)` with
`node_j = lmax/2 · cos(π(j-0.5)/N) + lmax/2`. -/
noncomputable def claimedChebyCoeff (f : ℝ → ℝ) (lmax : ℝ) (N : Nat) (o : Nat) : ℝ :=
  (2 / N) * ∑ j ∈ Finset.Icc 1 N,
    f (lmax / 2 * Real.cos (Real.pi * ((j:ℝ) - 0.5) / N) + lmax / 2)
      * Real.cos ((o:ℝ) * Real.pi * ((j:ℝ) - 0.5) / N)

/-- **C2** (code bug): on the constant filter `f = 1` with `lmax = 4`, order
`m = 0` and the default grid (`N = m+1 = 1`), the code returns `c[0] = 0`
(it sums over `arange(1, 1)`, which is empty), while the claimed
quadrature formula gives `c[0] = 2`. -/
theorem compute_cheby_coeff_deviates :
    (compute_cheby_coeff (fun _ => 1) 4 0 none).map (fun g => g 0) = some 0
    ∧ claimedChebyCoeff (fun _ => 1) 4 1 0 = 2 := by
  constructor
  · have hrange : List.range (Int.toNat ⌊(4:ℝ)⌋) = [0, 1, 2, 3] := by
      have h4 : ⌊(4:ℝ)⌋ = 4 := by norm_num
      rw [h4]
      rfl
    unfold compute_cheby_coeff
    rw [hrange]
    show some ((∑ j ∈ Finset.Ico 1 (chebyGridSize 0 none), ((1:ℝ)
          + (((2:ℕ):ℝ) + ((1:ℕ):ℝ)) / 2
            * Real.cos (Real.pi * (((0:ℕ):ℝ) - 1) * (((j:ℕ):ℝ) - 0.5)
                / (chebyGridSize 0 none))))
        * 2 / (chebyGridSize 0 none)) = some 0
    have hN : chebyGridSize 0 none = 1 := rfl
    rw [hN, Finset.Ico_self, Finset.sum_empty]
    norm_num
  · unfold claimedChebyCoeff
    rw [Finset.Icc_self, Finset.sum_singleton]
    norm_num

/-!
### FilterSpec construction (`Chebyshev.__init__`), coefficient caching and
shape normalization
-/

/-- A filter bank object (`Filter`): all that `__init__`'s try-branch reads
from it is `Nf`. -/
structure FilterBank where
  Nf : Nat

/-- `Chebyshev._compute_coefficients`: its body is `pass` — it computes
nothing and never assigns `self._coefficients`. -/
def compute_coefficients (_filters : FilterBank) : Option (List Nat) := none

/-- `np.expand_dims(c, -1)` at shape level: append a trailing singleton axis. -/
def expandDimsLast (sh : List Nat) : List Nat := sh ++ [1]

/-- The `while self._coefficients.ndim < 3: expand_dims(-1)` loop of
`Chebyshev.__init__`, at shape level. -/
def normalizeCoeffShape (sh : List Nat) : List Nat :=
  if sh.length < 3 then normalizeCoeffShape (expandDimsLast sh) else sh
termination_by 3 - sh.length
decreasing_by
  simp [expandDimsLast]
  omega

/-- The `filters` argument of `Chebyshev.__init__`: either a `Filter` object
or an array-like of Chebyshev coefficients (tracked at shape level). -/
inductive FiltersArg
  | bank (b : FilterBank)
  | array (shape : List Nat)

/-- The state a `Chebyshev` instance holds after `__init__`;
`coefficients = none` means the `_coefficients` attribute was never
assigned. -/
structure ChebyshevState where
  order : Nat
  coefficients : Option (List Nat)
  Nf : Nat

/-- `Chebyshev.__init__`: the try-branch calls `_compute_coefficients`
(a no-op stub) and reads `filters.Nf`; for an array argument the attribute
access raises, and the except-branch stores the shape-normalized array and
sets `Nf = shape[1]`. -/
def chebyshevInit (filters : FiltersArg) (order : Nat) : ChebyshevState :=
  match filters with
  | .bank b => { order := order, coefficients := compute_coefficients b, Nf := b.Nf }
  | .array sh =>
    let c := normalizeCoeffShape sh
    { order := order, coefficients := some c, Nf := c.getD 1 0 }

/-- Attribute access `self._coefficients` — `AttributeError` when the
attribute was never assigned. -/
def getCoefficients (st : ChebyshevState) : Except String (List Nat) :=
  match st.coefficients with
  | some c => .ok c
  | none => .error "AttributeError"

/-- **C7** (code bug): constructing from a function bank computes and caches
nothing (`_compute_coefficients` is a `pass` stub), so any later
evaluate/filter call fails as soon as it reads `self._coefficients`. -/
theorem bank_coefficients_never_cached (b : FilterBank) (order : Nat) :
    (chebyshevInit (.bank b) order).coefficients = none
    ∧ getCoefficients (chebyshevInit (.bank b) order) = .error "AttributeError" :=
  ⟨rfl, rfl⟩

/-- Counterexample to **C9**: a 4-dimensional coefficient array is stored
with its 4-dimensional shape unchanged, not normalized to 3 axes. -/
theorem coeff_shape_four_dims_unchanged :
    (chebyshevInit (.array [2, 1, 1, 1]) 30).coefficients = some [2, 1, 1, 1]
    ∧ ¬ ((normalizeCoeffShape [2, 1, 1, 1]).length = 3) := by
  have h : normalizeCoeffShape [2, 1, 1, 1] = [2, 1, 1, 1] := by
    unfold normalizeCoeffShape
    norm_num
  refine ⟨?_, ?_⟩
  · show some (normalizeCoeffShape [2, 1, 1, 1]) = some [2, 1, 1, 1]
    rw [h]
  · rw [h]
    decide

/-- **C9** (amended): coefficient arrays of at most 3 dimensions are padded
with trailing singleton axes to exactly 3 dimensions; arrays of more than 3
dimensions are stored with their shape unchanged. -/
theorem coeff_shape_normalization (sh : List Nat) :
    (sh.length ≤ 3 → normalizeCoeffShape sh = sh ++ List.replicate (3 - sh.length) 1)
    ∧ (3 < sh.length → normalizeCoeffShape sh = sh) := by
  have key : ∀ (k : Nat) (l : List Nat), l.length + k = 3 →
      normalizeCoeffShape l = l ++ List.replicate k 1 := by
    intro k
    induction k with
    | zero =>
      intro l h
      unfold normalizeCoeffShape
      rw [if_neg (by omega)]
      simp
    | succ k ih =>
      intro l h
      unfold normalizeCoeffShape
      rw [if_pos (by omega)]
      rw [ih (expandDimsLast l) (by simp [expandDimsLast]; omega)]
      simp [expandDimsLast, List.replicate_succ]
  constructor
  · intro h
    exact key (3 - sh.length) sh (by omega)
  · intro h
    unfold normalizeCoeffShape
    rw [if_neg (by omega)]

/-- Witness for the amended C9 at a 1-dimensional input. -/
theorem coeff_shape_normalization_witness :
    normalizeCoeffShape [5] = [5] ++ List.replicate (3 - [5].length) 1 :=
  (coeff_shape_normalization [5]).1 (by decide)

/-!
### Numeric upcasting policy (C8)
-/

/-- numpy floating dtypes relevant to the filtering path. -/
inductive NpFloat
  | float16
  | float32
  | float64
deriving DecidableEq

/-- The dtype conversion `cheby_op` (`operators.py`) applies to the input
signal: `if signal.dtype == 'float32': signal = np.float64(signal)`. -/
def chebyOpSignalDtype (d : NpFloat) : NpFloat :=
  if d = .float32 then .float64 else d

/-- `Chebyshev._filter` contains no dtype conversion of the signal. -/
def chebyshevFilterSignalDtype (d : NpFloat) : NpFloat := d

/-- Reduced-precision floating types (narrower than double). -/
def isReducedPrecision (d : NpFloat) : Bool :=
  match d with
  | .float64 => false
  | _ => true

/-- Counterexample to **C8**: `float16` is a reduced-precision float but is
not upcast by `cheby_op`, and `Chebyshev._filter` does not upcast even
`float32`. -/
theorem reduced_precision_not_always_upcast :
    isReducedPrecision .float16 = true
    ∧ chebyOpSignalDtype .float16 ≠ .float64
    ∧ chebyshevFilterSignalDtype .float32 ≠ .float64 := by
  decide

/-- **C8** (amended): only dtype exactly `float32` is upcast to `float64`,
and only by `cheby_op`; other dtypes pass through unchanged, and
`Chebyshev._filter` never converts the signal's dtype. -/
theorem float32_upcast_only (d : NpFloat) :
    chebyOpSignalDtype .float32 = .float64
    ∧ (d ≠ .float32 → chebyOpSignalDtype d = d)
    ∧ chebyshevFilterSignalDtype d = d := by
  refine ⟨rfl, fun h => ?_, rfl⟩
  rw [chebyOpSignalDtype, if_neg h]

/-- Witness for the amended C8 at `float16`. -/
theorem float32_upcast_only_witness :
    chebyOpSignalDtype .float32 = .float64
    ∧ chebyOpSignalDtype .float16 = .float16
    ∧ chebyshevFilterSignalDtype .float16 = .float16 :=
  ⟨(float32_upcast_only .float16).1,
   (float32_upcast_only .float16).2.1 (by decide),
   (float32_upcast_only .float16).2.2⟩

/-!
### Frame effects of filtering (C10): a heap model of ndarray aliasing

`Chebyshev._filter_recursive` takes a *view* of the input signal
(`x0 = s.view()`) and reassigns the view's `shape` attribute in place during
the diffusion (`x.shape = (M, Fin, N)` / `(M*Fin, N)`), and accumulates into
a freshly allocated result buffer with `result += …`;
`Chebyshev._filter_clenshaw` reshapes its own fresh buffers.  To settle the
frame claim, the aliasing structure is modelled explicitly: an array object
is a (buffer reference, shape attribute) pair living in a store, and buffers
hold flat data.  The numeric content of the einsum/matmul results is
irrelevant to the frame property, so those data transformations are
universally quantified (`mulOp`, `dotOp`); Python's intermediate arithmetic
temporaries (`2 * dot(L, x1)` etc.), each itself a fresh buffer, are fused
into the single fresh allocation of the expression's final value, which does
not affect aliasing with the input.
-/

/-- An ndarray object: a reference into the buffer heap plus its own shape
attribute. -/
structure NArr where
  buf : Nat
  shape : List Nat

/-- The store: array objects and data buffers, addressed by index. -/
structure Store where
  objs : List NArr
  bufs : List (List ℚ)

/-- The array object bound to id `i`. -/
def Store.obj (st : Store) (i : Nat) : NArr := (st.objs[i]?).getD ⟨0, []⟩

/-- The buffer contents seen through object `i`. -/
def Store.data (st : Store) (i : Nat) : List ℚ := (st.bufs[(st.obj i).buf]?).getD []

/-- `x.view()`: a fresh array object sharing `x`'s buffer. -/
def Store.view (st : Store) (i : Nat) : Nat × Store :=
  (st.objs.length, { st with objs := st.objs ++ [st.obj i] })

/-- `x.shape = sh`: in-place shape assignment on object `i`. -/
def Store.setShape (st : Store) (i : Nat) (sh : List Nat) : Store :=
  { st with objs := st.objs.set i { st.obj i with shape := sh } }

/-- Allocation of a fresh array with a fresh buffer (results of `np.einsum`,
`L.__rmul__`, `np.zeros` and whole-array arithmetic). -/
def Store.newArr (st : Store) (sh : List Nat) (d : List ℚ) : Nat × Store :=
  (st.objs.length,
   { objs := st.objs ++ [⟨st.bufs.length, sh⟩], bufs := st.bufs ++ [d] })

/-- `result += y`: in-place accumulation into object `i`'s buffer. -/
def Store.addInto (st : Store) (i : Nat) (d : List ℚ) : Store :=
  { st with
    bufs := st.bufs.set (st.obj i).buf (List.zipWith (· + ·) (st.data i) d) }

/-- What every operation of the filtering programs preserves: the object and
the buffer at address 0 (where the caller's signal lives), monotonicity of
the address spaces, and the buffer reference of every pre-existing object. -/
structure Pres (st st' : Store) : Prop where
  obj0 : st'.objs[0]? = st.objs[0]?
  buf0 : st'.bufs[0]? = st.bufs[0]?
  objLen : st.objs.length ≤ st'.objs.length
  bufLen : st.bufs.length ≤ st'.bufs.length
  objBuf : ∀ j, j < st.objs.length → (st'.obj j).buf = (st.obj j).buf

lemma presRefl (st : Store) : Pres st st :=
  ⟨Eq.refl _, Eq.refl _, le_refl _, le_refl _, fun _ _ => Eq.refl _⟩

lemma Pres.trans {s1 s2 s3 : Store} (h1 : Pres s1 s2) (h2 : Pres s2 s3) :
    Pres s1 s3 where
  obj0 := h2.obj0.trans h1.obj0
  buf0 := h2.buf0.trans h1.buf0
  objLen := le_trans h1.objLen h2.objLen
  bufLen := le_trans h1.bufLen h2.bufLen
  objBuf j hj := (h2.objBuf j (lt_of_lt_of_le hj h1.objLen)).trans (h1.objBuf j hj)

lemma Store.obj_setShape (st : Store) (i : Nat) (sh : List Nat) (j : Nat) :
    ((st.setShape i sh).obj j).buf = (st.obj j).buf := by
  unfold Store.setShape Store.obj
  by_cases h : i = j
  · subst h
    rw [List.getElem?_set_self']
    cases st.objs[i]? with
    | none => rfl
    | some v => rfl
  · rw [List.getElem?_set_ne h]

lemma pres_setShape (st : Store) (i : Nat) (sh : List Nat) (hi : i ≠ 0) :
    Pres st (st.setShape i sh) where
  obj0 := List.getElem?_set_ne hi
  buf0 := rfl
  objLen := by simp [Store.setShape]
  bufLen := le_refl _
  objBuf j _ := Store.obj_setShape st i sh j

lemma setShape_objs_length (st : Store) (i : Nat) (sh : List Nat) :
    (st.setShape i sh).objs.length = st.objs.length := by
  simp [Store.setShape]

lemma setShape_bufs (st : Store) (i : Nat) (sh : List Nat) :
    (st.setShape i sh).bufs = st.bufs := rfl

lemma obj_append (st : Store) (v : NArr) (j : Nat) (hj : j < st.objs.length) :
    (({ st with objs := st.objs ++ [v] } : Store).obj j) = st.obj j := by
  unfold Store.obj
  rw [show ({ st with objs := st.objs ++ [v] } : Store).objs = st.objs ++ [v] from rfl]
  rw [List.getElem?_append, if_pos hj]

lemma pres_view (st : Store) (i : Nat) (h1o : 1 ≤ st.objs.length) :
    Pres st (st.view i).2 where
  obj0 := by
    show (st.objs ++ [st.obj i])[0]? = st.objs[0]?
    rw [List.getElem?_append, if_pos (by omega)]
  buf0 := rfl
  objLen := by simp [Store.view]
  bufLen := le_refl _
  objBuf j hj := by
    show ((({ st with objs := st.objs ++ [st.obj i] } : Store)).obj j).buf = (st.obj j).buf
    rw [obj_append st (st.obj i) j hj]

lemma view_fst (st : Store) (i : Nat) : (st.view i).1 = st.objs.length := rfl

lemma pres_newArr (st : Store) (sh : List Nat) (d : List ℚ)
    (h1o : 1 ≤ st.objs.length) (h1b : 1 ≤ st.bufs.length) :
    Pres st (st.newArr sh d).2 where
  obj0 := by
    show (st.objs ++ [⟨st.bufs.length, sh⟩])[0]? = st.objs[0]?
    rw [List.getElem?_append, if_pos (by omega)]
  buf0 := by
    show (st.bufs ++ [d])[0]? = st.bufs[0]?
    rw [List.getElem?_append, if_pos (by omega)]
  objLen := by simp [Store.newArr]
  bufLen := by simp [Store.newArr]
  objBuf j hj := by
    show ((({ objs := st.objs ++ [⟨st.bufs.length, sh⟩], bufs := st.bufs ++ [d] } : Store)).obj j).buf
        = (st.obj j).buf
    unfold Store.obj
    rw [show ({ objs := st.objs ++ [⟨st.bufs.length, sh⟩], bufs := st.bufs ++ [d] } : Store).objs
        = st.objs ++ [⟨st.bufs.length, sh⟩] from rfl]
    rw [List.getElem?_append, if_pos hj]

lemma newArr_fst (st : Store) (sh : List Nat) (d : List ℚ) :
    (st.newArr sh d).1 = st.objs.length := rfl

lemma newArr_objs_length (st : Store) (sh : List Nat) (d : List ℚ) :
    (st.newArr sh d).2.objs.length = st.objs.length + 1 := by
  simp [Store.newArr]

lemma newArr_bufs_length (st : Store) (sh : List Nat) (d : List ℚ) :
    (st.newArr sh d).2.bufs.length = st.bufs.length + 1 := by
  simp [Store.newArr]

lemma newArr_obj_fresh (st : Store) (sh : List Nat) (d : List ℚ) :
    ((st.newArr sh d).2.obj (st.objs.length)).buf = st.bufs.length := by
  unfold Store.newArr Store.obj
  rw [show ({ objs := st.objs ++ [⟨st.bufs.length, sh⟩], bufs := st.bufs ++ [d] } : Store).objs
      = st.objs ++ [⟨st.bufs.length, sh⟩] from rfl]
  rw [List.getElem?_concat_length]
  rfl

lemma pres_addInto (st : Store) (i : Nat) (d : List ℚ)
    (h : (st.obj i).buf ≠ 0) : Pres st (st.addInto i d) where
  obj0 := rfl
  buf0 := List.getElem?_set_ne h
  objLen := le_refl _
  bufLen := by simp [Store.addInto]
  objBuf _ _ := rfl

lemma addInto_objs (st : Store) (i : Nat) (d : List ℚ) :
    (st.addInto i d).objs = st.objs := rfl

lemma view_objs_length (st : Store) (i : Nat) :
    (st.view i).2.objs.length = st.objs.length + 1 := by
  simp [Store.view]

lemma view_bufs (st : Store) (i : Nat) : (st.view i).2.bufs = st.bufs := rfl

/-- The shape/operator context of one `_filter_*` call.  The einsum and
matmul data transformations (`mulOp k`, `dotOp`) are arbitrary: the frame
property holds for every arithmetic interpretation. -/
structure FrameCtx where
  mulOp : Nat → List ℚ → List ℚ
  dotOp : List ℚ → List ℚ
  M : Nat
  Fi : Nat
  Fo : Nat
  N : Nat

/-- `def mult(c, x): x.shape = (M, Fin, N); return np.einsum('oi,min->mon', c, x)`
from `_filter_recursive`: reshape the argument in place, read it, allocate
the contraction result.  `k` is the coefficient index. -/
def recMult (ctx : FrameCtx) (k x : Nat) (st : Store) : Nat × Store :=
  let st1 := st.setShape x [ctx.M, ctx.Fi, ctx.N]
  st1.newArr [ctx.M, ctx.Fo, ctx.N] (ctx.mulOp k (st1.data x))

/-- `def dot(L, x): x.shape = (M*Fin, N); return L.__rmul__(x)` from
`_filter_recursive`. -/
def recDot (ctx : FrameCtx) (x : Nat) (st : Store) : Nat × Store :=
  let st1 := st.setShape x [ctx.M * ctx.Fi, ctx.N]
  st1.newArr [ctx.M * ctx.Fi, ctx.N] (ctx.dotOp (st1.data x))

/-- One iteration of `for k in range(2, K)` in `_filter_recursive`:
`x2 = 2 * dot(L, x1) - x0` (fresh), `result += mult(c[k], x2)` (in place on
`result`'s buffer).  Returns `x2`'s id and the new store. -/
def recStep (ctx : FrameCtx) (k x0 x1 result : Nat) (st : Store) : Nat × Store :=
  let pd := recDot ctx x1 st
  let px2 := pd.2.newArr [ctx.M * ctx.Fi, ctx.N]
    (List.zipWith (fun u v => 2 * u - v) (pd.2.data pd.1) (pd.2.data x0))
  let pm := recMult ctx k px2.1 px2.2
  (px2.1, pm.2.addInto result (pm.2.data pm.1))

/-- The loop `for k in range(2, K)` of `_filter_recursive` in the heap model
(`n` remaining iterations, buffers shifted as `x0, x1 = x1, x2`). -/
def filterRecProg (ctx : FrameCtx) : Nat → Nat → Nat → Nat → Nat → Store → Store
  | 0, _, _, _, _, st => st
  | n+1, k, x0, x1, result, st =>
    let p := recStep ctx k x0 x1 result st
    filterRecProg ctx n (k+1) x1 p.1 result p.2

/-- `Chebyshev._filter_recursive` in the heap model: `x0 = s.view()`,
`result = mult(c[0], x0)`, then (for K > 1) `x1 = dot(L, x0)`,
`result += mult(c[1], x1)` and the order loop. -/
def filterRecursiveProg (ctx : FrameCtx) (K1 : Nat) (s : Nat) (st : Store) :
    Nat × Store :=
  let pv := st.view s
  let pm0 := recMult ctx 0 pv.1 pv.2
  if 2 ≤ K1 then
    let px1 := recDot ctx pv.1 pm0.2
    let pm1 := recMult ctx 1 px1.1 px1.2
    let st1 := pm1.2.addInto pm0.1 (pm1.2.data pm1.1)
    (pm0.1, filterRecProg ctx (K1 - 2) 2 pv.1 px1.1 pm0.1 st1)
  else (pm0.1, pm0.2)

lemma recMult_spec (ctx : FrameCtx) (k x : Nat) (st : Store) (hx : x ≠ 0)
    (h1o : 1 ≤ st.objs.length) (h1b : 1 ≤ st.bufs.length) :
    Pres st (recMult ctx k x st).2
    ∧ (recMult ctx k x st).1 = st.objs.length
    ∧ (recMult ctx k x st).2.objs.length = st.objs.length + 1
    ∧ (recMult ctx k x st).2.bufs.length = st.bufs.length + 1
    ∧ ((recMult ctx k x st).2.obj ((recMult ctx k x st).1)).buf = st.bufs.length := by
  have hol : (st.setShape x [ctx.M, ctx.Fi, ctx.N]).objs.length = st.objs.length :=
    setShape_objs_length st x _
  have hbl : (st.setShape x [ctx.M, ctx.Fi, ctx.N]).bufs = st.bufs :=
    setShape_bufs st x _
  have P1 : Pres st (st.setShape x [ctx.M, ctx.Fi, ctx.N]) := pres_setShape st x _ hx
  have P2 : Pres (st.setShape x [ctx.M, ctx.Fi, ctx.N]) (recMult ctx k x st).2 :=
    pres_newArr _ _ _ (by omega) (by rw [hbl]; omega)
  refine ⟨P1.trans P2, ?_, ?_, ?_, ?_⟩
  · show ((st.setShape x [ctx.M, ctx.Fi, ctx.N]).newArr _ _).1 = st.objs.length
    rw [newArr_fst, hol]
  · show ((st.setShape x [ctx.M, ctx.Fi, ctx.N]).newArr _ _).2.objs.length = _
    rw [newArr_objs_length, hol]
  · show ((st.setShape x [ctx.M, ctx.Fi, ctx.N]).newArr _ _).2.bufs.length = _
    rw [newArr_bufs_length, hbl]
  · show (((st.setShape x [ctx.M, ctx.Fi, ctx.N]).newArr _ _).2.obj
        (((st.setShape x [ctx.M, ctx.Fi, ctx.N]).newArr _ _).1)).buf = _
    rw [newArr_fst, hol]
    have := newArr_obj_fresh (st.setShape x [ctx.M, ctx.Fi, ctx.N])
      [ctx.M, ctx.Fo, ctx.N]
      (ctx.mulOp k ((st.setShape x [ctx.M, ctx.Fi, ctx.N]).data x))
    rw [hol] at this
    rw [this, hbl]

lemma recDot_spec (ctx : FrameCtx) (x : Nat) (st : Store) (hx : x ≠ 0)
    (h1o : 1 ≤ st.objs.length) (h1b : 1 ≤ st.bufs.length) :
    Pres st (recDot ctx x st).2
    ∧ (recDot ctx x st).1 = st.objs.length
    ∧ (recDot ctx x st).2.objs.length = st.objs.length + 1
    ∧ (recDot ctx x st).2.bufs.length = st.bufs.length + 1 := by
  have hol : (st.setShape x [ctx.M * ctx.Fi, ctx.N]).objs.length = st.objs.length :=
    setShape_objs_length st x _
  have hbl : (st.setShape x [ctx.M * ctx.Fi, ctx.N]).bufs = st.bufs :=
    setShape_bufs st x _
  have P1 : Pres st (st.setShape x [ctx.M * ctx.Fi, ctx.N]) := pres_setShape st x _ hx
  have P2 : Pres (st.setShape x [ctx.M * ctx.Fi, ctx.N]) (recDot ctx x st).2 :=
    pres_newArr _ _ _ (by omega) (by rw [hbl]; omega)
  refine ⟨P1.trans P2, ?_, ?_, ?_⟩
  · show ((st.setShape x [ctx.M * ctx.Fi, ctx.N]).newArr _ _).1 = st.objs.length
    rw [newArr_fst, hol]
  · show ((st.setShape x [ctx.M * ctx.Fi, ctx.N]).newArr _ _).2.objs.length = _
    rw [newArr_objs_length, hol]
  · show ((st.setShape x [ctx.M * ctx.Fi, ctx.N]).newArr _ _).2.bufs.length = _
    rw [newArr_bufs_length, hbl]

lemma recStep_spec (ctx : FrameCtx) (k x0 x1 result : Nat) (st : Store)
    (hx1 : x1 ≠ 0) (hres : result < st.objs.length)
    (hbuf : (st.obj result).buf ≠ 0)
    (h1o : 1 ≤ st.objs.length) (h1b : 1 ≤ st.bufs.length) :
    Pres st (recStep ctx k x0 x1 result st).2
    ∧ (recStep ctx k x0 x1 result st).1 = st.objs.length + 1 := by
  obtain ⟨P1, hdfst, hdol, hdbl⟩ := recDot_spec ctx x1 st hx1 h1o h1b
  have P2 : Pres (recDot ctx x1 st).2
      ((recDot ctx x1 st).2.newArr [ctx.M * ctx.Fi, ctx.N]
        (List.zipWith (fun u v => 2 * u - v)
          ((recDot ctx x1 st).2.data (recDot ctx x1 st).1)
          ((recDot ctx x1 st).2.data x0))).2 :=
    pres_newArr _ _ _ (by omega) (by omega)
  set px2 := (recDot ctx x1 st).2.newArr [ctx.M * ctx.Fi, ctx.N]
    (List.zipWith (fun u v => 2 * u - v)
      ((recDot ctx x1 st).2.data (recDot ctx x1 st).1)
      ((recDot ctx x1 st).2.data x0)) with hpx2
  have hx2fst : px2.1 = st.objs.length + 1 := by
    rw [hpx2, newArr_fst, hdol]
  have hx2ol : px2.2.objs.length = st.objs.length + 2 := by
    rw [hpx2, newArr_objs_length, hdol]
  have hx2bl : px2.2.bufs.length = st.bufs.length + 2 := by
    rw [hpx2, newArr_bufs_length, hdbl]
  obtain ⟨P3, hmfst, hmol, hmbl, hmfb⟩ :=
    recMult_spec ctx k px2.1 px2.2 (by omega) (by omega) (by omega)
  have hres2 : result < px2.2.objs.length := by omega
  have hbuf3 : ((recMult ctx k px2.1 px2.2).2.obj result).buf = (st.obj result).buf := by
    rw [P3.objBuf result hres2, P2.objBuf result (by omega), P1.objBuf result hres]
  have P4 : Pres (recMult ctx k px2.1 px2.2).2
      ((recMult ctx k px2.1 px2.2).2.addInto result
        ((recMult ctx k px2.1 px2.2).2.data (recMult ctx k px2.1 px2.2).1)) :=
    pres_addInto _ result _ (by rw [hbuf3]; exact hbuf)
  exact ⟨P1.trans (P2.trans (P3.trans P4)), hx2fst⟩

lemma filterRecProg_pres (ctx : FrameCtx) :
    ∀ (n k x0 x1 result : Nat) (st : Store),
      x1 ≠ 0 → result < st.objs.length → (st.obj result).buf ≠ 0 →
      1 ≤ st.objs.length → 1 ≤ st.bufs.length →
      Pres st (filterRecProg ctx n k x0 x1 result st) := by
  intro n
  induction n with
  | zero => intro k x0 x1 result st _ _ _ _ _; exact presRefl st
  | succ n ih =>
    intro k x0 x1 result st hx1 hres hbuf h1o h1b
    obtain ⟨Ps, hfst⟩ := recStep_spec ctx k x0 x1 result st hx1 hres hbuf h1o h1b
    have hres' : result < (recStep ctx k x0 x1 result st).2.objs.length :=
      lt_of_lt_of_le hres Ps.objLen
    have hbuf' : ((recStep ctx k x0 x1 result st).2.obj result).buf ≠ 0 := by
      rw [Ps.objBuf result hres]
      exact hbuf
    have Pih := ih (k+1) x1 (recStep ctx k x0 x1 result st).1 result
      (recStep ctx k x0 x1 result st).2
      (by omega) hres' hbuf'
      (le_trans h1o Ps.objLen) (le_trans h1b Ps.bufLen)
    exact Ps.trans Pih

lemma filterRecursiveProg_pres (ctx : FrameCtx) (K1 s : Nat) (st : Store)
    (h1o : 1 ≤ st.objs.length) (h1b : 1 ≤ st.bufs.length) :
    Pres st (filterRecursiveProg ctx K1 s st).2 := by
  have Pv : Pres st (st.view s).2 := pres_view st s h1o
  have hvol : (st.view s).2.objs.length = st.objs.length + 1 := view_objs_length st s
  have hvbl : (st.view s).2.bufs = st.bufs := view_bufs st s
  have hvne : (st.view s).1 ≠ 0 := by
    rw [view_fst]
    omega
  obtain ⟨P0, h0fst, h0ol, h0bl, h0fb⟩ :=
    recMult_spec ctx 0 (st.view s).1 (st.view s).2 hvne (by omega) (by rw [hvbl]; omega)
  set pm0 := recMult ctx 0 (st.view s).1 (st.view s).2 with hpm0
  by_cases h2 : 2 ≤ K1
  · have hunf : filterRecursiveProg ctx K1 s st
        = (pm0.1, filterRecProg ctx (K1 - 2) 2 (st.view s).1
            (recDot ctx (st.view s).1 pm0.2).1 pm0.1
            ((recMult ctx 1 (recDot ctx (st.view s).1 pm0.2).1
                (recDot ctx (st.view s).1 pm0.2).2).2.addInto pm0.1
              ((recMult ctx 1 (recDot ctx (st.view s).1 pm0.2).1
                  (recDot ctx (st.view s).1 pm0.2).2).2.data
                (recMult ctx 1 (recDot ctx (st.view s).1 pm0.2).1
                  (recDot ctx (st.view s).1 pm0.2).2).1))) := by
      show (if 2 ≤ K1 then _ else (pm0.1, pm0.2)) = _
      rw [if_pos h2]
    obtain ⟨P1, h1fst, h1ol, h1bl⟩ :=
      recDot_spec ctx (st.view s).1 pm0.2 hvne (by omega) (by omega)
    set px1 := recDot ctx (st.view s).1 pm0.2 with hpx1
    obtain ⟨P2, h2fst, h2ol, h2bl, h2fb⟩ :=
      recMult_spec ctx 1 px1.1 px1.2 (by omega) (by omega) (by omega)
    set pm1 := recMult ctx 1 px1.1 px1.2 with hpm1
    have hr0 : pm0.1 = st.objs.length + 1 := by
      rw [h0fst, hvol]
    have hrlt : pm0.1 < pm0.2.objs.length := by omega
    have hrbuf : (pm0.2.obj pm0.1).buf ≠ 0 := by
      rw [h0fb, view_bufs]
      omega
    have hrbuf2 : (pm1.2.obj pm0.1).buf ≠ 0 := by
      rw [P2.objBuf pm0.1 (by omega), P1.objBuf pm0.1 hrlt]
      exact hrbuf
    have Padd : Pres pm1.2 (pm1.2.addInto pm0.1 (pm1.2.data pm1.1)) :=
      pres_addInto _ _ _ hrbuf2
    have hrbuf3 : ((pm1.2.addInto pm0.1 (pm1.2.data pm1.1)).obj pm0.1).buf ≠ 0 := by
      rw [Padd.objBuf pm0.1 (by omega)]
      exact hrbuf2
    have Ploop := filterRecProg_pres ctx (K1 - 2) 2 (st.view s).1 px1.1 pm0.1
      (pm1.2.addInto pm0.1 (pm1.2.data pm1.1))
      (by omega)
      (by
        have : (pm1.2.addInto pm0.1 (pm1.2.data pm1.1)).objs = pm1.2.objs :=
          addInto_objs _ _ _
        rw [show (pm1.2.addInto pm0.1 (pm1.2.data pm1.1)).objs.length
            = pm1.2.objs.length from by rw [this]]
        omega)
      hrbuf3
      (by
        rw [show (pm1.2.addInto pm0.1 (pm1.2.data pm1.1)).objs.length
            = pm1.2.objs.length from by rw [addInto_objs]]
        omega)
      (le_trans (by omega) Padd.bufLen)
    rw [hunf]
    exact Pv.trans (P0.trans (P1.trans (P2.trans (Padd.trans Ploop))))
  · have hunf : filterRecursiveProg ctx K1 s st = (pm0.1, pm0.2) := by
      show (if 2 ≤ K1 then _ else (pm0.1, pm0.2)) = _
      rw [if_neg h2]
    rw [hunf]
    exact Pv.trans P0

/-- `def mult(c, s): return np.einsum('oi,min->mon', c, s)` from
`_filter_clenshaw`: reads `s`, allocates, performs no shape mutation. -/
def clenMult (ctx : FrameCtx) (k s : Nat) (st : Store) : Nat × Store :=
  st.newArr [ctx.M, ctx.Fo, ctx.N] (ctx.mulOp k (st.data s))

/-- `def dot(L, x)` from `_filter_clenshaw`: reshape `x` to `(M*Fout, N)` in
place, allocate `y = L.__rmul__(x)`, restore `x.shape`, set `y.shape`. -/
def clenDot (ctx : FrameCtx) (x : Nat) (st : Store) : Nat × Store :=
  let st1 := st.setShape x [ctx.M * ctx.Fo, ctx.N]
  let py := st1.newArr [ctx.M * ctx.Fo, ctx.N] (ctx.dotOp (st1.data x))
  let st2 := py.2.setShape x [ctx.M, ctx.Fo, ctx.N]
  (py.1, st2.setShape py.1 [ctx.M, ctx.Fo, ctx.N])

/-- `b2` starts as the Python int `0` (no buffer) and becomes an array id
after the first loop iteration; subtracting the scalar reads no buffer. -/
def dataOfOpt (st : Store) (b : Option Nat) : List ℚ :=
  match b with
  | none => []
  | some i => st.data i

/-- The loop `for k in range(K-2, 0, -1)` of `_filter_clenshaw`:
`b = mult(c[k], s) + 2 * dot(L, b1) - b2` (fresh), then `b2, b1 = b1, b`. -/
def filterClenProg (ctx : FrameCtx) (s : Nat) :
    Nat → Nat → Option Nat → Nat → Store → Option Nat × Nat × Store
  | 0, _, b2, b1, st => (b2, b1, st)
  | n+1, k, b2, b1, st =>
    let pm := clenMult ctx k s st
    let pd := clenDot ctx b1 pm.2
    let pb := pd.2.newArr [ctx.M, ctx.Fo, ctx.N]
      (List.zipWith (· - ·)
        (List.zipWith (fun u v => u + 2 * v) (pd.2.data pm.1) (pd.2.data pd.1))
        (dataOfOpt pd.2 b2))
    filterClenProg ctx s n (k-1) (some b1) pb.1 pb.2

/-- `Chebyshev._filter_clenshaw` in the heap model:
`b1 = mult(c[K-1], s) if K >= 2 else np.zeros((M, Fout, N))`, the backward
loop, and `mult(c[0], s) + dot(L, b1) - b2`. -/
def filterClenshawProg (ctx : FrameCtx) (K1 : Nat) (s : Nat) (st : Store) :
    Nat × Store :=
  let pb1 := if 2 ≤ K1 then clenMult ctx (K1 - 1) s st
    else st.newArr [ctx.M, ctx.Fo, ctx.N] (List.replicate (ctx.M * ctx.Fo * ctx.N) 0)
  let lp := filterClenProg ctx s (K1 - 2) (K1 - 2) none pb1.1 pb1.2
  let pm0 := clenMult ctx 0 s lp.2.2
  let pd := clenDot ctx lp.2.1 pm0.2
  pd.2.newArr [ctx.M, ctx.Fo, ctx.N]
    (List.zipWith (· - ·)
      (List.zipWith (· + ·) (pd.2.data pm0.1) (pd.2.data pd.1))
      (dataOfOpt pd.2 lp.1))

lemma clenMult_spec (ctx : FrameCtx) (k s : Nat) (st : Store)
    (h1o : 1 ≤ st.objs.length) (h1b : 1 ≤ st.bufs.length) :
    Pres st (clenMult ctx k s st).2
    ∧ (clenMult ctx k s st).1 = st.objs.length
    ∧ (clenMult ctx k s st).2.objs.length = st.objs.length + 1
    ∧ (clenMult ctx k s st).2.bufs.length = st.bufs.length + 1 :=
  ⟨pres_newArr st _ _ h1o h1b, newArr_fst st _ _, newArr_objs_length st _ _,
   newArr_bufs_length st _ _⟩

lemma clenDot_spec (ctx : FrameCtx) (x : Nat) (st : Store) (hx : x ≠ 0)
    (h1o : 1 ≤ st.objs.length) (h1b : 1 ≤ st.bufs.length) :
    Pres st (clenDot ctx x st).2
    ∧ (clenDot ctx x st).1 = st.objs.length
    ∧ (clenDot ctx x st).2.objs.length = st.objs.length + 1
    ∧ (clenDot ctx x st).2.bufs.length = st.bufs.length + 1 := by
  have hol : (st.setShape x [ctx.M * ctx.Fo, ctx.N]).objs.length = st.objs.length :=
    setShape_objs_length st x _
  have hbl : (st.setShape x [ctx.M * ctx.Fo, ctx.N]).bufs = st.bufs :=
    setShape_bufs st x _
  have P1 : Pres st (st.setShape x [ctx.M * ctx.Fo, ctx.N]) := pres_setShape st x _ hx
  set st1 := st.setShape x [ctx.M * ctx.Fo, ctx.N] with hst1
  have P2 : Pres st1 (st1.newArr [ctx.M * ctx.Fo, ctx.N] (ctx.dotOp (st1.data x))).2 :=
    pres_newArr _ _ _ (by omega) (by rw [hst1, hbl]; omega)
  set py := st1.newArr [ctx.M * ctx.Fo, ctx.N] (ctx.dotOp (st1.data x)) with hpy
  have hyfst : py.1 = st.objs.length := by
    rw [hpy, newArr_fst, hst1, hol]
  have hyol : py.2.objs.length = st.objs.length + 1 := by
    rw [hpy, newArr_objs_length, hst1, hol]
  have hybl : py.2.bufs.length = st.bufs.length + 1 := by
    rw [hpy, newArr_bufs_length, hst1, hbl]
  have P3 : Pres py.2 (py.2.setShape x [ctx.M, ctx.Fo, ctx.N]) :=
    pres_setShape _ x _ hx
  set st2 := py.2.setShape x [ctx.M, ctx.Fo, ctx.N] with hst2
  have P4 : Pres st2 (st2.setShape py.1 [ctx.M, ctx.Fo, ctx.N]) :=
    pres_setShape _ py.1 _ (by omega)
  refine ⟨P1.trans (P2.trans (P3.trans P4)), hyfst, ?_, ?_⟩
  · show (st2.setShape py.1 [ctx.M, ctx.Fo, ctx.N]).objs.length = _
    rw [setShape_objs_length, hst2, setShape_objs_length, hyol]
  · show (st2.setShape py.1 [ctx.M, ctx.Fo, ctx.N]).bufs.length = _
    rw [setShape_bufs, hst2, setShape_bufs, hybl]

lemma filterClenProg_pres (ctx : FrameCtx) (s : Nat) :
    ∀ (n k : Nat) (b2 : Option Nat) (b1 : Nat) (st : Store),
      b1 ≠ 0 → 1 ≤ st.objs.length → 1 ≤ st.bufs.length →
      Pres st (filterClenProg ctx s n k b2 b1 st).2.2
      ∧ (filterClenProg ctx s n k b2 b1 st).2.1 ≠ 0 := by
  intro n
  induction n with
  | zero => intro k b2 b1 st hb1 _ _; exact ⟨presRefl st, hb1⟩
  | succ n ih =>
    intro k b2 b1 st hb1 h1o h1b
    obtain ⟨Pm, hmfst, hmol, hmbl⟩ := clenMult_spec ctx k s st h1o h1b
    obtain ⟨Pd, hdfst, hdol, hdbl⟩ :=
      clenDot_spec ctx b1 (clenMult ctx k s st).2 hb1 (by omega) (by omega)
    set pd := clenDot ctx b1 (clenMult ctx k s st).2 with hpd
    have Pb : Pres pd.2 (pd.2.newArr [ctx.M, ctx.Fo, ctx.N]
        (List.zipWith (· - ·)
          (List.zipWith (fun u v => u + 2 * v)
            (pd.2.data (clenMult ctx k s st).1) (pd.2.data pd.1))
          (dataOfOpt pd.2 b2))).2 :=
      pres_newArr _ _ _ (by omega) (by omega)
    set pb := pd.2.newArr [ctx.M, ctx.Fo, ctx.N]
      (List.zipWith (· - ·)
        (List.zipWith (fun u v => u + 2 * v)
          (pd.2.data (clenMult ctx k s st).1) (pd.2.data pd.1))
        (dataOfOpt pd.2 b2)) with hpb
    have hbfst : pb.1 = st.objs.length + 2 := by
      rw [hpb, newArr_fst]
      omega
    have Prec := ih (k-1) (some b1) pb.1 pb.2 (by omega)
      (by
        rw [hpb, newArr_objs_length]
        omega)
      (by
        rw [hpb, newArr_bufs_length]
        omega)
    exact ⟨Pm.trans (Pd.trans (Pb.trans Prec.1)), Prec.2⟩

lemma filterClenshawProg_pres (ctx : FrameCtx) (K1 s : Nat) (st : Store)
    (h1o : 1 ≤ st.objs.length) (h1b : 1 ≤ st.bufs.length) :
    Pres st (filterClenshawProg ctx K1 s st).2 := by
  set pb1 := if 2 ≤ K1 then clenMult ctx (K1 - 1) s st
    else st.newArr [ctx.M, ctx.Fo, ctx.N] (List.replicate (ctx.M * ctx.Fo * ctx.N) 0)
    with hpb1
  have hinit : Pres st pb1.2 ∧ pb1.1 = st.objs.length
      ∧ pb1.2.objs.length = st.objs.length + 1
      ∧ pb1.2.bufs.length = st.bufs.length + 1 := by
    by_cases h2 : 2 ≤ K1
    · rw [hpb1, if_pos h2]
      exact clenMult_spec ctx (K1 - 1) s st h1o h1b
    · rw [hpb1, if_neg h2]
      exact ⟨pres_newArr st _ _ h1o h1b, newArr_fst st _ _,
        newArr_objs_length st _ _, newArr_bufs_length st _ _⟩
  obtain ⟨Pinit, hifst, hiol, hibl⟩ := hinit
  obtain ⟨Plp, hlpb1⟩ := filterClenProg_pres ctx s (K1 - 2) (K1 - 2) none pb1.1 pb1.2
    (by omega) (by omega) (by omega)
  set lp := filterClenProg ctx s (K1 - 2) (K1 - 2) none pb1.1 pb1.2 with hlp
  obtain ⟨Pm0, hm0fst, hm0ol, hm0bl⟩ := clenMult_spec ctx 0 s lp.2.2
    (le_trans (by omega) Plp.objLen) (le_trans (by omega) Plp.bufLen)
  obtain ⟨Pd, hdfst, hdol, hdbl⟩ := clenDot_spec ctx lp.2.1 (clenMult ctx 0 s lp.2.2).2
    hlpb1 (by omega) (by omega)
  set pd := clenDot ctx lp.2.1 (clenMult ctx 0 s lp.2.2).2 with hpd
  have Pr : Pres pd.2 (pd.2.newArr [ctx.M, ctx.Fo, ctx.N]
      (List.zipWith (· - ·)
        (List.zipWith (· + ·)
          (pd.2.data (clenMult ctx 0 s lp.2.2).1) (pd.2.data pd.1))
        (dataOfOpt pd.2 lp.1))).2 :=
    pres_newArr _ _ _ (by omega) (by omega)
  exact Pinit.trans (Plp.trans (Pm0.trans (Pd.trans Pr)))

/-- **C10** — both filtering methods leave the caller's input array `s`
unchanged in contents and shape: starting from a store holding only `s`
(object 0, buffer 0), after either the recursive or the Clenshaw program the
object 0 (including its shape attribute) and the buffer 0 are exactly as
before, for every shape, contents, order count, and every interpretation of
the einsum/matmul arithmetic. -/
theorem filter_leaves_input_unchanged (ctx : FrameCtx) (K1 : Nat)
    (sshape : List Nat) (sdata : List ℚ) :
    ((filterRecursiveProg ctx K1 0 ⟨[⟨0, sshape⟩], [sdata]⟩).2.objs[0]?
        = some ⟨0, sshape⟩
      ∧ (filterRecursiveProg ctx K1 0 ⟨[⟨0, sshape⟩], [sdata]⟩).2.bufs[0]?
        = some sdata)
    ∧ ((filterClenshawProg ctx K1 0 ⟨[⟨0, sshape⟩], [sdata]⟩).2.objs[0]?
        = some ⟨0, sshape⟩
      ∧ (filterClenshawProg ctx K1 0 ⟨[⟨0, sshape⟩], [sdata]⟩).2.bufs[0]?
        = some sdata) := by
  have Pr := filterRecursiveProg_pres ctx K1 0 ⟨[⟨0, sshape⟩], [sdata]⟩
    (by simp) (by simp)
  have Pc := filterClenshawProg_pres ctx K1 0 ⟨[⟨0, sshape⟩], [sdata]⟩
    (by simp) (by simp)
  refine ⟨⟨?_, ?_⟩, ⟨?_, ?_⟩⟩
  · rw [Pr.obj0]
    rfl
  · rw [Pr.buf0]
    rfl
  · rw [Pc.obj0]
    rfl
  · rw [Pc.buf0]
    rfl

end PyGSP
